import Mathlib

/-!
Update content builder (`builder/update.go`).

A shallow embedding of the update-content pipeline of mixer-tools:

* the bounded worker pool written out twice in the source (the bundle-manifest
  stage of `buildUpdateContent` and `createZeroPack`), as a transition system
  over the feeder goroutine, the `W` worker goroutines, the unbuffered item
  channel and the buffered error channel;
* the archiver (`createCompressedArchive`, `createCompressedArchiveInternal`,
  `archiveFiles`) over a small file-system model;
* the per-bundle body of `zeroPackWorker`;
* the stage sequencing of `buildUpdateContent` and `signFile`.
-/

namespace Mixer

/-! ## Worker pool: data model -/

/-- Control state of one worker goroutine (`compWorker`, `zeroPackWorker`). -/
inductive WState (ι ε : Type) where
  /-- blocked in `for bundle := range bundleChan` -/
  | idle
  /-- has received `x` from `bundleChan`; the loop body has not finished -/
  | busy (x : ι)
  /-- the loop body produced error `e`; about to run `errorChan <- e; return` -/
  | failed (e : ε)
  /-- the goroutine has returned (deferred `wg.Done()` has run) -/
  | exited
  deriving DecidableEq, Repr

/-- Control state of the feeding goroutine (the caller). -/
inductive Phase (ε : Type) where
  /-- inside `for _, bundle := range ...` (or just after leaving it, before `close`) -/
  | feeding
  /-- after `close(bundleChan)` has run; blocked in `wg.Wait()` -/
  | waiting
  /-- the stage has produced its error value -/
  | returned (r : Option ε)
  deriving DecidableEq, Repr

/-- The two copies of the pool in the source differ only in how the error value
is computed after `wg.Wait()`. -/
inductive Stage where
  /-- the pool of `buildUpdateContent`, lines 88-133 -/
  | bundleManifests
  /-- the pool of `createZeroPack`, lines 184-262 -/
  | zeroPacks
  deriving DecidableEq, Repr

/-- A pool instance: the work list, the worker count and the outcome of the
per-item body (`none` is a nil error). -/
structure Pool (ι ε : Type) where
  stage : Stage
  items : List ι
  W : Nat
  f : ι → Option ε

/-- Shared and feeder-local state of a running pool.  `processed` and `sent`
are history variables: the items on which the body has been run, and the
errors that have been sent on `errorChan`. -/
structure PState (ι ε : Type) where
  /-- index of the range loop over the work list -/
  next : Nat
  /-- the feeder's `err` variable -/
  err : Option ε
  phase : Phase ε
  /-- contents of `errorChan` (capacity `W`), oldest first -/
  errorChan : List ε
  workers : List (WState ι ε)
  processed : List ι
  sent : List ε
  deriving DecidableEq, Repr

/-- One atomic step of one goroutine. -/
inductive Action where
  /-- feeder: `select` takes `case bundleChan <- bundle`, worker `w` receives -/
  | dispatch (w : Nat)
  /-- feeder: `select` takes `case err = <-errorChan` -/
  | recvErr
  /-- feeder: the loop is left and `close(bundleChan)` runs -/
  | closeChan
  /-- worker `w` runs the loop body on the item it holds -/
  | work (w : Nat)
  /-- worker `w`: `errorChan <- err; return` -/
  | report (w : Nat)
  /-- worker `w`: the range loop ends on the closed channel -/
  | leave (w : Nat)
  /-- feeder: `wg.Wait()` returns and the error value is computed -/
  | ret
  deriving DecidableEq, Repr

variable {ι ε : Type}

/-- State after the `go worker()` loop: every worker is parked at the range
loop, nothing has been dispatched. -/
def Pool.init (P : Pool ι ε) : PState ι ε :=
  { next := 0, err := none, phase := .feeding, errorChan := [],
    workers := List.replicate P.W .idle, processed := [], sent := [] }

/-- Whether `wg.Wait()` can return: every worker has run `wg.Done()`. -/
def allExited : List (WState ι ε) → Bool
  | [] => true
  | .exited :: ws => allExited ws
  | _ :: _ => false

/-- The error value after `wg.Wait()`.
`buildUpdateContent`: `if err != nil { return err }; if len(errorChan) > 0 { return <-errorChan }`.
`createZeroPack`: `if len(errorChan) > 0 { err = <-errorChan }; return err`. -/
def stageResult : Stage → Option ε → List ε → Option ε
  | .bundleManifests, some e, _ => some e
  | .bundleManifests, none, q => q.head?
  | .zeroPacks, err, [] => err
  | .zeroPacks, _, e :: _ => some e

/-- Feeder, `case bundleChan <- bundle`: needs the loop to be at an item, `err`
still nil, and worker `w` waiting at the (unbuffered) channel.  A queued error
does not disable this case: when both cases of the `select` can proceed, Go
picks either. -/
def dispatch (P : Pool ι ε) (w : Nat) (s : PState ι ε) : Option (PState ι ε) :=
  match s.phase, s.err, P.items[s.next]?, s.workers[w]? with
  | .feeding, none, some x, some .idle =>
      some { s with next := s.next + 1, workers := s.workers.set w (.busy x) }
  | _, _, _, _ => none

/-- Feeder, `case err = <-errorChan`: needs the loop to be at an item, `err`
still nil and a queued error.  The item of this iteration is not sent. -/
def recvErr (P : Pool ι ε) (s : PState ι ε) : Option (PState ι ε) :=
  match s.phase, s.err, P.items[s.next]?, s.errorChan with
  | .feeding, none, some _, e :: q => some { s with err := some e, errorChan := q }
  | _, _, _, _ => none

/-- Feeder: the loop ends (list exhausted, or `err != nil` after the select)
and `close(bundleChan)` runs. -/
def closeChan (P : Pool ι ε) (s : PState ι ε) : Option (PState ι ε) :=
  match s.phase with
  | .feeding =>
      if s.err.isSome || P.items.length ≤ s.next then some { s with phase := .waiting }
      else none
  | _ => none

/-- Worker `w` runs the body on its item: on success it goes back to the range
loop, on failure it holds the error it is about to send. -/
def work (P : Pool ι ε) (w : Nat) (s : PState ι ε) : Option (PState ι ε) :=
  match s.workers[w]? with
  | some (.busy x) =>
      match P.f x with
      | none => some { s with workers := s.workers.set w .idle,
                              processed := s.processed ++ [x] }
      | some e => some { s with workers := s.workers.set w (.failed e),
                                processed := s.processed ++ [x] }
  | _ => none

/-- Worker `w` sends its error; the send needs room in `errorChan`
(`make(chan error, W)`).  Then the worker returns. -/
def report (P : Pool ι ε) (w : Nat) (s : PState ι ε) : Option (PState ι ε) :=
  match s.workers[w]? with
  | some (.failed e) =>
      if s.errorChan.length < P.W then
        some { s with workers := s.workers.set w .exited,
                      errorChan := s.errorChan ++ [e], sent := s.sent ++ [e] }
      else none
  | _ => none

/-- Worker `w`, parked at the range loop, sees the channel closed and returns. -/
def leave (w : Nat) (s : PState ι ε) : Option (PState ι ε) :=
  match s.phase, s.workers[w]? with
  | .feeding, _ => none
  | _, some .idle => some { s with workers := s.workers.set w .exited }
  | _, _ => none

/-- Feeder: `wg.Wait()` returns once every worker has exited; the error value
of the stage is computed. -/
def ret (P : Pool ι ε) (s : PState ι ε) : Option (PState ι ε) :=
  match s.phase with
  | .waiting =>
      if allExited s.workers then
        some { s with phase := .returned (stageResult P.stage s.err s.errorChan) }
      else none
  | _ => none

/-- One step of the pool under scheduler choice `a`; `none` when the chosen
goroutine cannot make that move. -/
def step (P : Pool ι ε) (a : Action) (s : PState ι ε) : Option (PState ι ε) :=
  match a with
  | .dispatch w => dispatch P w s
  | .recvErr => recvErr P s
  | .closeChan => closeChan P s
  | .work w => work P w s
  | .report w => report P w s
  | .leave w => leave w s
  | .ret => ret P s

/-- Run a schedule (an interleaving) from a state. -/
def exec (P : Pool ι ε) : List Action → PState ι ε → Option (PState ι ε)
  | [], s => some s
  | a :: as, s => (step P a s).bind (exec P as)

/-- Number of `dispatch` steps in a schedule. -/
def countDispatch : List Action → Nat
  | [] => 0
  | .dispatch _ :: as => countDispatch as + 1
  | _ :: as => countDispatch as

/-- Number of items dispatched after the first `report` step of a schedule
(0 when no worker reports). -/
def dispatchedAfterReport : List Action → Nat
  | [] => 0
  | .report _ :: as => countDispatch as
  | _ :: as => dispatchedAfterReport as

/-- Number of items dispatched after the feeder's `recvErr` step. -/
def dispatchedAfterRecv : List Action → Nat
  | [] => 0
  | .recvErr :: as => countDispatch as
  | _ :: as => dispatchedAfterRecv as

/-! ## Worker pool: counting over the worker table -/

/-- Sum of a per-worker quantity over the worker table. -/
def wsum (g : WState ι ε → Nat) (ws : List (WState ι ε)) : Nat := (ws.map g).sum

/-- One for a worker that has returned, else zero. -/
def exitedN : WState ι ε → Nat
  | .exited => 1
  | _ => 0

/-- One for a worker holding an error it has not sent yet, else zero. -/
def failedN : WState ι ε → Nat
  | .failed _ => 1
  | _ => 0

/-- One for a worker holding item `x`, else zero. -/
def holds [DecidableEq ι] (x : ι) : WState ι ε → Nat
  | .busy y => if y = x then 1 else 0
  | _ => 0

/-- Remaining local steps of a worker before its next channel operation. -/
def weight : WState ι ε → Nat
  | .idle => 1
  | .busy _ => 2
  | .failed _ => 1
  | .exited => 0

/-- One when the feeder holds an error, else zero. -/
def errN : Option ε → Nat
  | none => 0
  | some _ => 1

/-- Remaining feeder steps that do not dispatch. -/
def phaseN (s : PState ι ε) : Nat :=
  match s.phase with
  | .feeding => 2 + (1 - errN s.err)
  | .waiting => 1
  | .returned _ => 0

/-- Termination measure: decreases on every step of every goroutine. -/
def measure (P : Pool ι ε) (s : PState ι ε) : Nat :=
  3 * (P.items.length - s.next) + wsum weight s.workers + phaseN s

/-- What holds in every reachable state of the pool. -/
structure Inv [DecidableEq ι] (P : Pool ι ε) (s : PState ι ε) : Prop where
  len : s.workers.length = P.W
  next_le : s.next ≤ P.items.length
  counts : ∀ x, s.processed.count x + wsum (holds x) s.workers = (P.items.take s.next).count x
  chan_le : s.errorChan.length + errN s.err ≤ wsum exitedN s.workers
  chan_eq : s.phase = .feeding → s.errorChan.length + errN s.err = wsum exitedN s.workers
  sent_len : s.sent.length = s.errorChan.length + errN s.err
  nfail : (s.processed.filter (fun x => (P.f x).isSome)).length
            = wsum failedN s.workers + s.sent.length
  chan_sub : ∀ e ∈ s.errorChan, e ∈ s.sent
  err_sub : ∀ e, s.err = some e → e ∈ s.sent
  sent_src : ∀ e ∈ s.sent, ∃ x ∈ s.processed, P.f x = some e
  failed_src : ∀ (w : Nat) (e : ε), s.workers[w]? = some (.failed e) →
                ∃ x ∈ s.processed, P.f x = some e
  closed : s.phase ≠ .feeding → s.err.isSome = true ∨ s.next = P.items.length
  done : ∀ r, s.phase = .returned r →
          allExited s.workers = true ∧ r = stageResult P.stage s.err s.errorChan


/-! ## Errors -/

/-- Go `error` values, as far as the builder tells them apart.  A nil error is
`none : Option GoError`. -/
inductive GoError where
  /-- an `*os.PathError` for which `os.IsNotExist` holds -/
  | notExist (path : String)
  /-- any other error value, with its message (library errors, `errors.Errorf`,
  `fmt.Errorf`, collaborator errors) -/
  | other (msg : String)
  /-- the result of `errors.Wrapf(cause, context)` -/
  | wrapped (cause : GoError) (context : String)
  deriving DecidableEq, Repr

/-- Go's `errors.Wrapf(err, format, args...)`: nil stays nil, otherwise the cause is
kept under the formatted context message. -/
def Wrapf : Option GoError → String → Option GoError
  | none, _ => none
  | some e, context => some (.wrapped e context)

/-- Go's `os.IsNotExist(err)`, applied to an error as returned by the `os` package
(it does not look through `errors.Wrapf`). -/
def IsNotExist : GoError → Bool
  | .notExist _ => true
  | _ => false

/-! ## Paths -/

/-- Split a path at every `/`. -/
def splitSlash : List Char → List (List Char)
  | [] => [[]]
  | c :: cs =>
      if c = '/' then [] :: splitSlash cs
      else
        match splitSlash cs with
        | [] => [[c]]
        | h :: t => (c :: h) :: t

/-- The element loop of `filepath.Clean`: `stack` holds the elements kept so
far, innermost first. -/
def cleanElems (rooted : Bool) : List (List Char) → List (List Char) → List (List Char)
  | stack, [] => stack
  | stack, e :: es =>
      if e = [] ∨ e = ['.'] then cleanElems rooted stack es
      else if e = ['.', '.'] then
        match stack with
        | top :: below =>
            if top = ['.', '.'] then cleanElems rooted (e :: stack) es
            else cleanElems rooted below es
        | [] => if rooted then cleanElems rooted [] es else cleanElems rooted [e] es
      else cleanElems rooted (e :: stack) es

/-- Go's `filepath.Clean` on Unix: the shortest path name equivalent to `path` by
purely lexical processing. -/
def Clean (path : String) : String :=
  match path.data with
  | [] => "."
  | c :: cs =>
      let rooted : Bool := c = '/'
      let elems := (cleanElems rooted [] (splitSlash (c :: cs))).reverse
      let body := List.intercalate ['/'] elems
      if rooted then String.mk ('/' :: body)
      else if body = [] then "." else String.mk body

/-- Go's `strings.Join(elems, "/")`. -/
def joinSlash : List String → String
  | [] => ""
  | [a] => a
  | a :: b :: rest => a ++ "/" ++ joinSlash (b :: rest)

/-- Go's `filepath.Join`: leading empty elements are ignored, the rest is joined
with `/` and cleaned; no non-empty element gives the empty string. -/
def Join : List String → String
  | [] => ""
  | e :: es => if e = "" then Join es else Clean (joinSlash (e :: es))

/-- Last element of a path, as `os.Lstat` reports it in `FileInfo.Name()`:
trailing slashes are dropped, then everything up to the last slash. -/
def baseName (path : String) : String :=
  let trimmed := (path.data.reverse.dropWhile (fun c => c = '/')).reverse
  match path.data with
  | [] => ""
  | c :: _ =>
      if trimmed = [] then String.mk [c]
      else String.mk ((trimmed.reverse.takeWhile (fun c => c ≠ '/')).reverse)

/-! ## File system -/

/-- File contents. -/
abbrev Bytes := List Nat

/-- The type bits of an `os.FileMode`. -/
inductive FileKind where
  | regular | dir | symlink | device | charDevice | namedPipe | socket | irregular
  deriving DecidableEq, Repr

/-- What `lstat` finds at a path: nothing, a lookup failure other than
"does not exist" (permission, I/O), or a node, which is not followed when it is
a symbolic link.  `readable` says whether the process may read the contents. -/
inductive Entry where
  | absent
  | unreachable (msg : String)
  | node (kind : FileKind) (perm : Nat) (data : Bytes) (readable : Bool)
  deriving DecidableEq, Repr

/-- A file system: what is found at each path. -/
abbrev FS := String → Entry

/-- The part of `os.FileInfo` the builder reads. -/
structure FileInfo where
  name : String
  size : Nat
  kind : FileKind
  perm : Nat
  deriving DecidableEq, Repr

/-- Go's `fi.Mode().IsRegular()`: no type bit is set. -/
def FileInfo.IsRegular (fi : FileInfo) : Bool := fi.kind = FileKind.regular

/-- Go's `os.Lstat`. -/
def Lstat (fs : FS) (path : String) : Except GoError FileInfo :=
  match fs path with
  | .absent => .error (.notExist path)
  | .unreachable msg => .error (.other msg)
  | .node kind perm data _ =>
      .ok { name := baseName path, size := data.length, kind := kind, perm := perm }

/-- Go's `ioutil.ReadFile` on a path that is not a symbolic link (the builder only
reads paths it has just seen to be regular files). -/
def ReadFile (fs : FS) (path : String) : Except GoError Bytes :=
  match fs path with
  | .absent => .error (.notExist path)
  | .unreachable msg => .error (.other msg)
  | .node .regular _ data true => .ok data
  | .node .regular _ _ false => .error (.other ("open " ++ path ++ ": permission denied"))
  | .node _ _ _ _ => .error (.other ("read " ++ path ++ ": not a regular file"))

/-- The file system with `path` bound to `e`. -/
def FS.set (fs : FS) (path : String) (e : Entry) : FS :=
  fun p => if p = path then e else fs p

/-- Go's `ioutil.WriteFile(path, data, perm)`: creates the file when nothing is
there, truncates and rewrites an existing regular file (its mode is kept), and
fails on anything else. -/
def WriteFile (fs : FS) (path : String) (data : Bytes) (perm : Nat) : Option GoError × FS :=
  match fs path with
  | .absent => (none, fs.set path (.node .regular perm data true))
  | .node .regular p _ r => (none, fs.set path (.node .regular p data r))
  | .unreachable msg => (some (.other msg), fs)
  | .node _ _ _ _ => (some (.other ("open " ++ path ++ ": not a regular file")), fs)

/-! ## Tar stream and compression filter -/

/-- The fields of `tar.Header` that `tar.FileInfoHeader` fills from a
`FileInfo`. -/
structure TarHeader where
  name : String
  size : Nat
  mode : Nat
  typeflag : FileKind
  deriving DecidableEq, Repr

/-- What the tar writer hands to the underlying `io.Writer`: an encoded header,
a run of file bytes, or the end-of-archive footer.  Block padding is part of
the encoding and not represented. -/
inductive Chunk where
  | header (h : TarHeader)
  | data (bs : Bytes)
  | footer
  deriving DecidableEq, Repr

/-- The environment of the archiver: the external compression filter behind
`swupd.NewExternalWriter(archive, "xz")`. -/
structure ArchiveEnv where
  /-- starting the filter (`swupd.NewExternalWriter`); `some e` when it fails -/
  start : Option GoError
  /-- writing one more chunk into the filter after `written`; `some e` on failure -/
  pipeWrite : List Chunk → Chunk → Option GoError
  /-- closing the filter after `written`: the compressed bytes left in the
  `archive` buffer, or the failure -/
  pipeClose : List Chunk → Except GoError Bytes

/-- State of a `tar.Writer`: what it has written to the underlying writer and
how many bytes the current entry still expects. -/
structure TarWriter where
  written : List Chunk
  nb : Nat
  deriving DecidableEq, Repr

/-- Go's `tar.NewWriter(w)` on a fresh underlying writer. -/
def NewWriter : TarWriter := { written := [], nb := 0 }

/-- Go's `tar.FileInfoHeader(fi, "")`: name, size and permission bits are taken
from `fi`; only regular files carry a size; sockets and files of unknown type
are refused. -/
def FileInfoHeader (fi : FileInfo) : Except GoError TarHeader :=
  match fi.kind with
  | .regular => .ok { name := fi.name, size := fi.size, mode := fi.perm, typeflag := .regular }
  | .dir => .ok { name := fi.name ++ "/", size := 0, mode := fi.perm, typeflag := .dir }
  | .socket => .error (.other "archive/tar: sockets not supported")
  | .irregular => .error (.other "archive/tar: unknown file mode")
  | k => .ok { name := fi.name, size := 0, mode := fi.perm, typeflag := k }

/-- One write of the tar writer to the underlying writer. -/
def TarWriter.emit (env : ArchiveEnv) (tw : TarWriter) (c : Chunk) (nb : Nat) :
    Option GoError × TarWriter :=
  match env.pipeWrite tw.written c with
  | some e => (some e, tw)
  | none => (none, { written := tw.written ++ [c], nb := nb })

/-- Go's `tw.WriteHeader(hdr)`: fails when the current entry is not fully written,
otherwise writes the header and expects `hdr.size` bytes. -/
def TarWriter.WriteHeader (env : ArchiveEnv) (tw : TarWriter) (hdr : TarHeader) :
    Option GoError × TarWriter :=
  if tw.nb ≠ 0 then
    (some (.other "archive/tar: missed writing bytes"), tw)
  else tw.emit env (.header hdr) hdr.size

/-- Go's `tw.Write(b)`: writes at most the bytes the current entry still expects and
reports `ErrWriteTooLong` when `b` is longer. -/
def TarWriter.Write (env : ArchiveEnv) (tw : TarWriter) (b : Bytes) :
    Option GoError × TarWriter :=
  let b' := b.take tw.nb
  let r := if b' = [] then (none, tw) else tw.emit env (.data b') (tw.nb - b'.length)
  match r with
  | (some e, tw') => (some e, tw')
  | (none, tw') =>
      if tw.nb < b.length then (some (.other "archive/tar: write too long"), tw')
      else (none, tw')

/-- Go's `tw.Close()`: fails when the current entry is not fully written, otherwise
writes the footer. -/
def TarWriter.Close (env : ArchiveEnv) (tw : TarWriter) : Option GoError × TarWriter :=
  if tw.nb ≠ 0 then
    (some (.other "archive/tar: missed writing bytes"), tw)
  else tw.emit env .footer 0

/-- Reading a tar stream back: the entries (header and contents) in order.
`cur` is the entry being read.  Fails on a stream that is not well formed
(contents before a header, contents whose length differs from the header's
size, missing or misplaced footer). -/
def untarFrom : Option (TarHeader × Bytes) → List Chunk → Option (List (TarHeader × Bytes))
  | _, [] => none
  | cur, .footer :: rest =>
      match cur, rest with
      | none, [] => some []
      | some (h, d), [] => if d.length = h.size then some [(h, d)] else none
      | _, _ :: _ => none
  | cur, .data bs :: rest =>
      match cur with
      | none => none
      | some (h, d) => untarFrom (some (h, d ++ bs)) rest
  | cur, .header h' :: rest =>
      match cur with
      | none => untarFrom (some (h', [])) rest
      | some (h, d) =>
          if d.length = h.size then (untarFrom (some (h', [])) rest).map ((h, d) :: ·)
          else none

/-- Unpack a whole tar stream. -/
def untar (stream : List Chunk) : Option (List (TarHeader × Bytes)) := untarFrom none stream

/-! ## Archiver (`createCompressedArchive`, `archiveFiles`) -/

/-- The loop of `archiveFiles` over the remaining sources, followed by
`tw.Close()`. -/
def archiveLoop (env : ArchiveEnv) (fs : FS) : TarWriter → List String → Option GoError × TarWriter
  | tw, [] => tw.Close env
  | tw, src :: rest =>
      match Lstat fs src with
      | .error err => (some err, tw)
      | .ok fi =>
          if !fi.IsRegular then
            (some (.other (src ++ " has unsupported type of file")), tw)
          else
            match FileInfoHeader fi with
            | .error err => (some err, tw)
            | .ok hdr =>
                match tw.WriteHeader env hdr with
                | (some err, tw1) => (some err, tw1)
                | (none, tw1) =>
                    match ReadFile fs src with
                    | .error err => (some err, tw1)
                    | .ok srcData =>
                        match tw1.Write env srcData with
                        | (some err, tw2) => (some err, tw2)
                        | (none, tw2) => archiveLoop env fs tw2 rest

/-- Source `archiveFiles(w, srcs)`: the error value and what was written to `w`. -/
def archiveFiles (env : ArchiveEnv) (fs : FS) (srcs : List String) :
    Option GoError × TarWriter :=
  archiveLoop env fs NewWriter srcs

/-- Source `createCompressedArchiveInternal(dst, srcs...)`: the error value and the
file system afterwards.  The destination is written only after the archive has
been built and compressed in memory. -/
def createCompressedArchiveInternal (env : ArchiveEnv) (fs : FS) (dst : String)
    (srcs : List String) : Option GoError × FS :=
  match env.start with
  | some err => (some err, fs)
  | none =>
      match archiveFiles env fs srcs with
      | (some err, _) => (some err, fs)
      | (none, xw) =>
          match env.pipeClose xw.written with
          | .error err => (some err, fs)
          | .ok archive => WriteFile fs dst archive 0o644

/-- Source `createCompressedArchive(dst, srcs...)`: the internal result wrapped with
the destination path. -/
def createCompressedArchive (env : ArchiveEnv) (fs : FS) (dst : String)
    (srcs : List String) : Option GoError × FS :=
  let r := createCompressedArchiveInternal env fs dst srcs
  (Wrapf r.1 ("couldn't create compressed archive " ++ dst), r.2)

/-- A source the archiver accepts: a readable regular file. -/
def IsReadableRegular (fs : FS) (path : String) : Prop :=
  ∃ perm data, fs path = .node .regular perm data true

/-- A source the archiver must refuse: nothing at the path, a lookup failure,
or a node that is not a regular file (directory, symlink, device, ...). -/
def IsRejected (fs : FS) (path : String) : Prop :=
  match fs path with
  | .node .regular _ _ _ => False
  | _ => True

/-- The tar entry `archiveFiles` produces for a readable regular file. -/
def entryOf (fs : FS) (path : String) : TarHeader × Bytes :=
  match fs path with
  | .node _ perm data _ =>
      ({ name := baseName path, size := data.length, mode := perm, typeflag := .regular }, data)
  | _ => ({ name := baseName path, size := 0, mode := 0, typeflag := .regular }, [])

/-- The chunks of one entry in the stream: the header, then the contents when
there are any. -/
def chunksOf (e : TarHeader × Bytes) : List Chunk :=
  if e.2 = [] then [.header e.1] else [.header e.1, .data e.2]

/-! ## Collaborators and builder state -/

/-- Type `swupd.File`, as far as the builder reads it. -/
structure File where
  Name : String
  Version : Nat
  deriving DecidableEq, Repr

/-- Type `swupd.Manifest`, as far as the builder reads it. -/
structure Manifest where
  Name : String
  deriving DecidableEq, Repr

/-- The result of `swupd.CreateManifests`. -/
structure MoM where
  /-- Field `mom.Header.Version` -/
  Version : Nat
  Files : List File
  UpdatedBundles : List Manifest
  FullManifest : Manifest
  deriving DecidableEq, Repr

/-- Type `swupd.PackInfo`. -/
structure PackInfo where
  Warnings : List String
  FullfileCount : Nat
  DeltaCount : Nat
  deriving DecidableEq, Repr

/-- Type `swupd.FullfilesInfo`. -/
structure FullfilesInfo where
  Skipped : Nat
  NotCompressed : Nat
  CompressedCounts : List (String × Nat)
  deriving DecidableEq, Repr

/-- The fields of `Builder` that `update.go` reads. -/
structure Builder where
  /-- Field `b.Config.Builder.ServerStateDir` -/
  ServerStateDir : String
  /-- Field `b.Config.Builder.Cert` -/
  Cert : String
  /-- Field `b.Config.Swupd.Compression` -/
  Compression : List String
  /-- Field `b.State.Mix.Format` -/
  Format : String
  /-- Field `b.State.Mix.PreviousMixVer` -/
  PreviousMixVer : String
  MixVer : String
  MixVerUint32 : Nat
  NumBundleWorkers : Nat
  NumFullfileWorkers : Nat
  NumDeltaWorkers : Nat
  deriving DecidableEq, Repr

/-- The fields of `UpdateParameters` that `update.go` reads. -/
structure UpdateParameters where
  MinVersion : Int
  SkipSigning : Bool
  SkipFullfiles : Bool
  SkipPacks : Bool
  deriving DecidableEq, Repr

/-- A call made by the pipeline, with its arguments and its error result.
The list of calls of a run is a history variable. -/
inductive Call where
  | writeMetaFiles (dir format version : String) (err : Option GoError)
  | CreateManifests (version previous minVersion format : Nat) (stateDir : String)
      (workers : Nat) (err : Option GoError)
  /-- Go's `exec.Command(name, args...).Run()` with its captured output -/
  | Run (name : String) (args : List String) (err : Option GoError) (out : String)
  /-- Source `createCompressedArchive(dst, srcs...)`; `err` is the error of
  `createCompressedArchiveInternal`, before wrapping -/
  | createCompressedArchive (dst : String) (srcs : List String) (err : Option GoError)
  /-- the worker pool over `mom.UpdatedBundles` -/
  | bundleManifests (dir : String) (bundles : List Manifest) (workers : Nat)
      (err : Option GoError)
  | CreateFullfiles (full : Manifest) (chrootDir outputDir : String) (workers : Nat)
      (err : Option GoError)
  | CreatePack (name : String) (fromVersion toVersion : Nat) (outputDir bundleDir : String)
      (err : Option GoError)
  /-- the worker pool of `createZeroPack` -/
  | zeroPacks (outputDir bundleDir : String) (bundles : List File) (workers : Nat)
      (err : Option GoError)
  deriving DecidableEq, Repr

/-- The error result recorded with a call. -/
def Call.err : Call → Option GoError
  | .writeMetaFiles _ _ _ e => e
  | .CreateManifests _ _ _ _ _ _ e => e
  | .Run _ _ e _ => e
  | .createCompressedArchive _ _ e => e
  | .bundleManifests _ _ _ e => e
  | .CreateFullfiles _ _ _ _ e => e
  | .CreatePack _ _ _ _ _ e => e
  | .zeroPacks _ _ _ _ e => e

/-- The file system together with the calls made so far. -/
structure World where
  fs : FS
  calls : List Call

/-- The world after a call that left the file system as `fs`. -/
def World.after (w : World) (fs : FS) (c : Call) : World :=
  { fs := fs, calls := w.calls ++ [c] }

/-- What `update.go` calls but does not define: the helpers of the builder
package, the `swupd` package, the process runner, and the outcome of a complete
run of each worker pool.  Each takes the file system it finds and returns the
one it leaves. -/
structure Env where
  /-- the compression filter behind `swupd.NewExternalWriter` -/
  archive : ArchiveEnv
  /-- the `Version` constant of the builder package -/
  Version : String
  parseUint32 : String → Except GoError Nat
  writeMetaFiles : FS → String → String → String → Option GoError × FS
  CreateManifests : FS → Nat → Nat → Nat → Nat → String → Nat → Except GoError MoM × FS
  CreateFullfiles : FS → Manifest → String → String → Nat → List String →
    Except GoError FullfilesInfo × FS
  GetPackFilename : String → Nat → String
  CreatePack : FS → String → Nat → Nat → String → String → Except GoError PackInfo × FS
  /-- Go's `cmd.Run()` with stdout and stderr captured in one buffer -/
  Run : FS → String → List String → (Option GoError × String) × FS
  /-- error value and file system after a complete run of the bundle-manifest
  pool (lines 88-133); its interleavings are the subject of `exec` -/
  bundlePool : FS → String → List Manifest → Nat → Option GoError × FS
  /-- error value and file system after a complete run of the zero-pack pool
  (lines 189-258) -/
  zeroPackPool : FS → String → String → List File → Nat → Option GoError × FS

/-- Go's `filepath.Dir` on Unix: everything up to the last slash, cleaned. -/
def Dir (path : String) : String :=
  Clean (String.mk (path.data.reverse.dropWhile (fun c => c ≠ '/')).reverse)

/-! ## Zero-pack worker body -/

/-- The canonical path of the zero pack of `bundle` (line 201). -/
def packPath (env : Env) (outputDir : String) (bundle : File) : String :=
  Join [outputDir, toString bundle.Version, env.GetPackFilename bundle.Name 0]

/-- One turn of the loop of `zeroPackWorker` (lines 199-231) on `bundle`: the
error the worker sends on `errorChan` (`none` when it goes on to the next
bundle) and the world afterwards.  Printing is left out. -/
def zeroPackBody (env : Env) (outputDir bundleDir : String) (w : World) (bundle : File) :
    Option GoError × World :=
  let name := bundle.Name
  let version := toString bundle.Version
  let packPath := Join [outputDir, version, env.GetPackFilename name 0]
  match Lstat w.fs packPath with
  | .ok _ => (none, w)
  | .error zErr =>
      if !IsNotExist zErr then
        (Wrapf (some zErr) ("couldn't access existing pack file " ++ packPath), w)
      else
        match env.CreatePack w.fs name 0 bundle.Version outputDir bundleDir with
        | (.error zErr, fs') =>
            (Wrapf (some zErr) ("couldn't make pack " ++ name ++ " for version " ++ version),
              w.after fs' (.CreatePack name 0 bundle.Version outputDir bundleDir (some zErr)))
        | (.ok _, fs') =>
            (none, w.after fs' (.CreatePack name 0 bundle.Version outputDir bundleDir none))

/-! ## Pipeline -/

/-- Source `b.signFile(fileName)`: runs openssl and, when it fails, returns a new
error carrying the captured output. -/
def signFile (env : Env) (b : Builder) (w : World) (fileName : String) :
    Option GoError × World :=
  let sig := fileName ++ ".sig"
  let args := ["smime", "-sign", "-binary", "-in", fileName,
    "-signer", b.Cert, "-inkey", Dir b.Cert ++ "/private.pem",
    "-outform", "DER", "-out", sig]
  match env.Run w.fs "openssl" args with
  | ((some err, out), fs') =>
      (some (.other ("failed to sign file:\n" ++ out)),
        w.after fs' (.Run "openssl" args (some err) out))
  | ((none, out), fs') => (none, w.after fs' (.Run "openssl" args none out))

/-- Source `createCompressedArchive` as called by the pipeline: the call is recorded
with the error of `createCompressedArchiveInternal`. -/
def archiveCall (env : Env) (w : World) (dst : String) (srcs : List String) :
    Option GoError × World :=
  let r := createCompressedArchive env.archive w.fs dst srcs
  (r.1, w.after r.2
    (.createCompressedArchive dst srcs (createCompressedArchiveInternal env.archive w.fs dst srcs).1))

/-- Source `b.createZeroPack(timer, bundles, outputDir)`: the error value of the pool
run. -/
def createZeroPack (env : Env) (b : Builder) (w : World) (bundles : List File)
    (outputDir : String) : Option GoError × World :=
  let bundleDir := Join [b.ServerStateDir, "image"]
  let r := env.zeroPackPool w.fs outputDir bundleDir bundles b.NumDeltaWorkers
  (r.1, w.after r.2 (.zeroPacks outputDir bundleDir bundles b.NumDeltaWorkers r.1))

/-- Source `b.buildUpdateContent(params, timer)`, started on file system `fs`: the
error value and the world afterwards.  Printing and the timer are left out. -/
def buildUpdateContent (env : Env) (b : Builder) (params : UpdateParameters) (fs : FS) :
    Option GoError × World :=
  let w0 : World := { fs := fs, calls := [] }
  match env.parseUint32 b.Format with
  | .error _ => (some (.other "invalid format"), w0)
  | .ok format =>
  let minVersion := (params.MinVersion % 4294967296).toNat
  let metaDir := Join [b.ServerStateDir, "www", b.MixVer]
  match env.writeMetaFiles w0.fs metaDir b.Format env.Version with
  | (some err, fs1) =>
      (Wrapf (some err) "failed to write update metadata files",
        w0.after fs1 (.writeMetaFiles metaDir b.Format env.Version (some err)))
  | (none, fs1) =>
  let w1 := w0.after fs1 (.writeMetaFiles metaDir b.Format env.Version none)
  match env.parseUint32 b.PreviousMixVer with
  | .error err => (some err, w1)
  | .ok previous =>
  match env.CreateManifests w1.fs b.MixVerUint32 previous minVersion format
      b.ServerStateDir b.NumBundleWorkers with
  | (.error err, fs2) =>
      (Wrapf (some err) "failed to create update metadata",
        w1.after fs2 (.CreateManifests b.MixVerUint32 previous minVersion format
          b.ServerStateDir b.NumBundleWorkers (some err)))
  | (.ok mom, fs2) =>
  let w2 := w1.after fs2 (.CreateManifests b.MixVerUint32 previous minVersion format
    b.ServerStateDir b.NumBundleWorkers none)
  -- sign the Manifest.MoM file in place based on the Mix version
  let signed :=
    if !params.SkipSigning then
      signFile env b w2 (Join [b.ServerStateDir, "www", b.MixVer, "Manifest.MoM"])
    else (none, w2)
  match signed with
  | (some err, w3) => (some err, w3)
  | (none, w3) =>
  let outputDir := Join [b.ServerStateDir, "www"]
  let thisVersionDir := Join [outputDir, toString b.MixVerUint32]
  let momF := Join [thisVersionDir, "Manifest.MoM"]
  let archived :=
    if params.SkipSigning then archiveCall env w3 (momF ++ ".tar") [momF]
    else archiveCall env w3 (momF ++ ".tar") [momF, momF ++ ".sig"]
  match archived with
  | (some err, w4) => (some err, w4)
  | (none, w4) =>
  -- bundle manifests, through the worker pool
  let pool := env.bundlePool w4.fs thisVersionDir mom.UpdatedBundles b.NumBundleWorkers
  let w5 := w4.after pool.2
    (.bundleManifests thisVersionDir mom.UpdatedBundles b.NumBundleWorkers pool.1)
  match pool.1 with
  | some err => (some err, w5)
  | none =>
  -- the full manifest
  let f := Join [thisVersionDir, "Manifest.full"]
  match archiveCall env w5 (f ++ ".tar") [f] with
  | (some err, w6) => (some err, w6)
  | (none, w6) =>
  let fullfiles : Option GoError × World :=
    if !params.SkipFullfiles then
      let fullfilesDir := Join [outputDir, b.MixVer, "files"]
      let fullChrootDir := Join [b.ServerStateDir, "image", b.MixVer, "full"]
      match env.CreateFullfiles w6.fs mom.FullManifest fullChrootDir fullfilesDir
          b.NumFullfileWorkers b.Compression with
      | (.error err, fs7) =>
          (some err, w6.after fs7 (.CreateFullfiles mom.FullManifest fullChrootDir fullfilesDir
            b.NumFullfileWorkers (some err)))
      | (.ok _, fs7) =>
          (none, w6.after fs7 (.CreateFullfiles mom.FullManifest fullChrootDir fullfilesDir
            b.NumFullfileWorkers none))
    else (none, w6)
  match fullfiles with
  | (some err, w7) => (some err, w7)
  | (none, w7) =>
  if !params.SkipPacks then
    match createZeroPack env b w7 mom.Files outputDir with
    | (some err, w8) => (some err, w8)
    | (none, w8) => (none, w8)
  else (none, w7)

/-- Arguments of the first `createCompressedArchive` call in a list of calls. -/
def firstArchive : List Call → Option (String × List String)
  | [] => none
  | .createCompressedArchive dst srcs _ :: _ => some (dst, srcs)
  | _ :: cs => firstArchive cs

/-- Whether a call runs the external signing utility. -/
def Call.isSigner : Call → Bool
  | .Run name _ _ _ => name == "openssl"
  | _ => false

/-- The error `buildUpdateContent` returns when the pipeline-level call `c`
failed with `e`. -/
def returnedFor (c : Call) (e : GoError) : GoError :=
  match c with
  | .writeMetaFiles _ _ _ _ => .wrapped e "failed to write update metadata files"
  | .CreateManifests _ _ _ _ _ _ _ => .wrapped e "failed to create update metadata"
  | .Run _ _ _ out => .other ("failed to sign file:\n" ++ out)
  | .createCompressedArchive dst _ _ => .wrapped e ("couldn't create compressed archive " ++ dst)
  | .bundleManifests _ _ _ _ => e
  | .CreateFullfiles _ _ _ _ _ => e
  | .CreatePack _ _ _ _ _ _ => e
  | .zeroPacks _ _ _ _ _ => e

/-! ## The calls of a pipeline run -/

/-- Go's `uint32(params.MinVersion)`. -/
def minVersionOf (params : UpdateParameters) : Nat := (params.MinVersion % 4294967296).toNat

/-- The `writeMetaFiles` call of line 45. -/
def metaCall (env : Env) (b : Builder) (e : Option GoError) : Call :=
  .writeMetaFiles (Join [b.ServerStateDir, "www", b.MixVer]) b.Format env.Version e

/-- The `swupd.CreateManifests` call of line 56. -/
def manifestsCall (b : Builder) (params : UpdateParameters) (previous format : Nat)
    (e : Option GoError) : Call :=
  .CreateManifests b.MixVerUint32 previous (minVersionOf params) format b.ServerStateDir
    b.NumBundleWorkers e

/-- The file handed to `signFile` on line 69. -/
def signedFile (b : Builder) : String :=
  Join [b.ServerStateDir, "www", b.MixVer, "Manifest.MoM"]

/-- The openssl arguments of `signFile` for `fileName`. -/
def signArgs (b : Builder) (fileName : String) : List String :=
  ["smime", "-sign", "-binary", "-in", fileName,
    "-signer", b.Cert, "-inkey", Dir b.Cert ++ "/private.pem",
    "-outform", "DER", "-out", fileName ++ ".sig"]

/-- The openssl run of line 69. -/
def signCall (b : Builder) (e : Option GoError) (out : String) : Call :=
  .Run "openssl" (signArgs b (signedFile b)) e out

/-- Local `outputDir` of line 75. -/
def outputDirOf (b : Builder) : String := Join [b.ServerStateDir, "www"]

/-- Local `thisVersionDir` of line 76. -/
def thisVersionDirOf (b : Builder) : String := Join [outputDirOf b, toString b.MixVerUint32]

/-- Local `momF` of line 78. -/
def momFOf (b : Builder) : String := Join [thisVersionDirOf b, "Manifest.MoM"]

/-- The sources of the MoM archive (lines 79-83). -/
def momSources (b : Builder) (params : UpdateParameters) : List String :=
  if params.SkipSigning then [momFOf b] else [momFOf b, momFOf b ++ ".sig"]

/-- The MoM archive call of lines 79-83. -/
def momArchiveCall (b : Builder) (params : UpdateParameters) (e : Option GoError) : Call :=
  .createCompressedArchive (momFOf b ++ ".tar") (momSources b params) e

/-- The bundle-manifest pool of lines 88-133. -/
def poolCall (b : Builder) (mom : MoM) (e : Option GoError) : Call :=
  .bundleManifests (thisVersionDirOf b) mom.UpdatedBundles b.NumBundleWorkers e

/-- The full-manifest archive call of line 138. -/
def fullArchiveCall (b : Builder) (e : Option GoError) : Call :=
  .createCompressedArchive (Join [thisVersionDirOf b, "Manifest.full"] ++ ".tar")
    [Join [thisVersionDirOf b, "Manifest.full"]] e

/-- The `swupd.CreateFullfiles` call of line 152. -/
def fullfilesCall (b : Builder) (mom : MoM) (e : Option GoError) : Call :=
  .CreateFullfiles mom.FullManifest (Join [b.ServerStateDir, "image", b.MixVer, "full"])
    (Join [outputDirOf b, b.MixVer, "files"]) b.NumFullfileWorkers e

/-- The zero-pack pool of line 174. -/
def zeroPacksCall (b : Builder) (mom : MoM) (e : Option GoError) : Call :=
  .zeroPacks (outputDirOf b) (Join [b.ServerStateDir, "image"]) mom.Files b.NumDeltaWorkers e

/-- The calls of an optional stage: none when it is skipped, else the one
successful call. -/
def Optional (skipped : Bool) (sig : List Call) (ok : Call → Prop) : Prop :=
  (skipped = true ∧ sig = []) ∨ (skipped = false ∧ ∃ c, ok c ∧ sig = [c])

/-- The possible runs of `buildUpdateContent`: the error returned and the
calls made, stage by stage. -/
inductive RunShape (env : Env) (b : Builder) (params : UpdateParameters) :
    Option GoError → List Call → Prop where
  | badFormat : RunShape env b params (some (.other "invalid format")) []
  | metaFailed (e : GoError) :
      RunShape env b params (some (.wrapped e "failed to write update metadata files"))
        [metaCall env b (some e)]
  | badPrevious (e : GoError) : RunShape env b params (some e) [metaCall env b none]
  | manifestsFailed (previous format : Nat) (e : GoError) :
      RunShape env b params (some (.wrapped e "failed to create update metadata"))
        [metaCall env b none, manifestsCall b params previous format (some e)]
  | signFailed (previous format : Nat) (e : GoError) (out : String)
      (hs : params.SkipSigning = false) :
      RunShape env b params (some (.other ("failed to sign file:\n" ++ out)))
        [metaCall env b none, manifestsCall b params previous format none,
          signCall b (some e) out]
  | momArchiveFailed (previous format : Nat) (sig : List Call) (e : GoError)
      (hsig : Optional params.SkipSigning sig (fun c => ∃ out, c = signCall b none out)) :
      RunShape env b params
        (some (.wrapped e ("couldn't create compressed archive " ++ (momFOf b ++ ".tar"))))
        ([metaCall env b none, manifestsCall b params previous format none] ++ sig ++
          [momArchiveCall b params (some e)])
  | poolFailed (previous format : Nat) (sig : List Call) (mom : MoM) (e : GoError)
      (hsig : Optional params.SkipSigning sig (fun c => ∃ out, c = signCall b none out)) :
      RunShape env b params (some e)
        ([metaCall env b none, manifestsCall b params previous format none] ++ sig ++
          [momArchiveCall b params none, poolCall b mom (some e)])
  | fullArchiveFailed (previous format : Nat) (sig : List Call) (mom : MoM) (e : GoError)
      (hsig : Optional params.SkipSigning sig (fun c => ∃ out, c = signCall b none out)) :
      RunShape env b params
        (some (.wrapped e ("couldn't create compressed archive " ++
          (Join [thisVersionDirOf b, "Manifest.full"] ++ ".tar"))))
        ([metaCall env b none, manifestsCall b params previous format none] ++ sig ++
          [momArchiveCall b params none, poolCall b mom none, fullArchiveCall b (some e)])
  | fullfilesFailed (previous format : Nat) (sig : List Call) (mom : MoM) (e : GoError)
      (hsig : Optional params.SkipSigning sig (fun c => ∃ out, c = signCall b none out))
      (hf : params.SkipFullfiles = false) :
      RunShape env b params (some e)
        ([metaCall env b none, manifestsCall b params previous format none] ++ sig ++
          [momArchiveCall b params none, poolCall b mom none, fullArchiveCall b none,
            fullfilesCall b mom (some e)])
  | zeroPacksFailed (previous format : Nat) (sig ff : List Call) (mom : MoM) (e : GoError)
      (hsig : Optional params.SkipSigning sig (fun c => ∃ out, c = signCall b none out))
      (hff : Optional params.SkipFullfiles ff (fun c => c = fullfilesCall b mom none))
      (hp : params.SkipPacks = false) :
      RunShape env b params (some e)
        ([metaCall env b none, manifestsCall b params previous format none] ++ sig ++
          [momArchiveCall b params none, poolCall b mom none, fullArchiveCall b none] ++ ff ++
          [zeroPacksCall b mom (some e)])
  | done (previous format : Nat) (sig ff zp : List Call) (mom : MoM)
      (hsig : Optional params.SkipSigning sig (fun c => ∃ out, c = signCall b none out))
      (hff : Optional params.SkipFullfiles ff (fun c => c = fullfilesCall b mom none))
      (hzp : Optional params.SkipPacks zp (fun c => c = zeroPacksCall b mom none)) :
      RunShape env b params none
        ([metaCall env b none, manifestsCall b params previous format none] ++ sig ++
          [momArchiveCall b params none, poolCall b mom none, fullArchiveCall b none] ++ ff ++ zp)

/-! ## Concrete pools and schedules -/

/-- Three items, two workers, every body succeeds (bundle-manifest stage). -/
def poolOk : Pool Nat Nat := ⟨.bundleManifests, [10, 11, 12], 2, fun _ => none⟩

/-- A complete interleaving of `poolOk`. -/
def schedOk : List Action :=
  [.dispatch 0, .dispatch 1, .work 0, .dispatch 0, .closeChan, .work 1, .work 0,
   .leave 0, .leave 1, .ret]

/-- Five items, two workers, the body fails on item 0 only (zero-pack stage). -/
def poolFailFirst : Pool Nat Nat :=
  ⟨.zeroPacks, [0, 1, 2, 3, 4], 2, fun x => if x = 0 then some 99 else none⟩

/-- Worker 0 fails on the first item and reports; the select then keeps taking
the send case, handing the four remaining items to worker 1. -/
def schedLate : List Action :=
  [.dispatch 0, .work 0, .report 0,
   .dispatch 1, .work 1, .dispatch 1, .work 1, .dispatch 1, .work 1, .dispatch 1, .work 1,
   .closeChan, .leave 1, .ret]

/-- Worker 0 fails on the first item; the feeder takes the error at once. -/
def schedPrompt : List Action :=
  [.dispatch 0, .work 0, .report 0, .recvErr, .closeChan, .leave 1, .ret]

/-- Two items, one worker, the body fails on item 0 only (bundle-manifest stage). -/
def poolOneWorker : Pool Nat Nat :=
  ⟨.bundleManifests, [0, 1], 1, fun x => if x = 0 then some 99 else none⟩

/-- The only complete interleaving of `poolOneWorker`. -/
def schedOneWorker : List Action :=
  [.dispatch 0, .work 0, .report 0, .recvErr, .closeChan, .ret]

/-! ## A concrete file system and environment -/

/-- A compression filter that always works; as output it lists the sizes of
the chunks it was fed. -/
def demoArchiveEnv : ArchiveEnv :=
  { start := none
    pipeWrite := fun _ _ => none
    pipeClose := fun cs => .ok (cs.map (fun c =>
      match c with
      | .header h => h.size
      | .data bs => bs.length
      | .footer => 0)) }

/-- A server-state tree holding the manifests of version 10. -/
def demoFS : FS := fun p =>
  if p = "/srv/state/www/10" then .node .dir 0o755 [] true
  else if p = "/srv/state/www/10/Manifest.MoM" then .node .regular 0o644 [77, 111, 77] true
  else if p = "/srv/state/www/10/Manifest.full" then .node .regular 0o644 [102, 117] true
  else if p = "/srv/state/www/10/Manifest.os-core" then .node .regular 0o644 [] true
  else if p = "/srv/state/www/10/pack-os-core-from-0.tar" then .node .regular 0o644 [1] true
  else if p = "/srv/state/www/10/pack-locked-from-0.tar" then .unreachable "permission denied"
  else .absent

/-- The MoM the demo manifest collaborator returns. -/
def demoMoM : MoM :=
  { Version := 10
    Files := [⟨"os-core", 10⟩]
    UpdatedBundles := [⟨"os-core"⟩]
    FullManifest := ⟨"full"⟩ }

/-- Decimal value of a string of digits. -/
def parseDigits (s : String) : Except GoError Nat :=
  if s.data ≠ [] ∧ s.data.all (fun c => decide ('0' ≤ c ∧ c ≤ '9')) then
    .ok (s.data.foldl (fun n c => 10 * n + (c.toNat - 48)) 0)
  else .error (.other ("parsing " ++ s ++ ": invalid syntax"))

/-- The `-in` file of an openssl argument list. -/
def inputOf : List String → String
  | "-in" :: f :: _ => f
  | _ :: rest => inputOf rest
  | [] => ""

/-- Collaborators that all work; the signer needs its input file to exist and
writes the signature next to it. -/
def demoEnv : Env :=
  { archive := demoArchiveEnv
    Version := "5.0"
    parseUint32 := parseDigits
    writeMetaFiles := fun fs _ _ _ => (none, fs)
    CreateManifests := fun fs _ _ _ _ _ _ => (.ok demoMoM, fs)
    CreateFullfiles := fun fs _ _ _ _ _ => (.ok ⟨0, 0, []⟩, fs)
    GetPackFilename := fun name v => "pack-" ++ name ++ "-from-" ++ toString v ++ ".tar"
    CreatePack := fun fs _ _ _ _ _ => (.ok ⟨[], 0, 0⟩, fs)
    Run := fun fs _ args =>
      match fs (inputOf args) with
      | .node .regular _ _ _ =>
          ((none, ""), fs.set (inputOf args ++ ".sig") (.node .regular 0o644 [48] true))
      | _ => ((some (.other "exit status 2"), "Error reading S/MIME message"), fs)
    bundlePool := fun fs _ _ _ => (none, fs)
    zeroPackPool := fun fs _ _ _ _ => (none, fs) }

/-- As `demoEnv`, but full-file generation fails. -/
def demoEnvFullfilesFail : Env :=
  { demoEnv with
    CreateFullfiles := fun fs _ _ _ _ _ => (.error (.other "no space left on device"), fs) }

/-- A builder whose mix version is written canonically. -/
def demoBuilder : Builder :=
  { ServerStateDir := "/srv/state"
    Cert := "/srv/cert/Swupd_Root.pem"
    Compression := ["external-xz"]
    Format := "25"
    PreviousMixVer := "0"
    MixVer := "10"
    MixVerUint32 := 10
    NumBundleWorkers := 2
    NumFullfileWorkers := 2
    NumDeltaWorkers := 1 }

/-- The same builder with the mix version file reading `010`, which parses to
the same number 10. -/
def demoBuilder010 : Builder := { demoBuilder with MixVer := "010" }

/-- No stage skipped. -/
def demoParams : UpdateParameters :=
  { MinVersion := 0, SkipSigning := false, SkipFullfiles := false, SkipPacks := false }

/-- Signing skipped. -/
def demoParamsNoSign : UpdateParameters := { demoParams with SkipSigning := true }

/-! # Theorems -/

theorem wsum_cons (g : WState ι ε → Nat) (a : WState ι ε) (ws : List (WState ι ε)) :
    wsum g (a :: ws) = g a + wsum g ws := by
  simp [wsum]

theorem wsum_set (g : WState ι ε → Nat) :
    ∀ (ws : List (WState ι ε)) (w : Nat) (a b : WState ι ε), ws[w]? = some a →
      wsum g (ws.set w b) + g a = wsum g ws + g b
  | [], w, a, b, h => by simp at h
  | c :: ws, 0, a, b, h => by
      simp at h
      subst h
      simp [wsum_cons]
      omega
  | c :: ws, w + 1, a, b, h => by
      simp at h
      have ih := wsum_set g ws w a b h
      simp [wsum_cons]
      omega

theorem wsum_replicate (g : WState ι ε → Nat) (n : Nat) (a : WState ι ε) :
    wsum g (List.replicate n a) = n * g a := by
  induction n with
  | zero => simp [wsum]
  | succ n ih => simp [List.replicate_succ, wsum_cons, ih]; ring

theorem wsum_le_length (g : WState ι ε → Nat) (hg : ∀ a, g a ≤ 1) :
    ∀ ws : List (WState ι ε), wsum g ws ≤ ws.length
  | [] => by simp [wsum]
  | a :: ws => by
      have := wsum_le_length g hg ws
      have := hg a
      simp [wsum_cons]
      omega

theorem exitedN_le_one (a : WState ι ε) : exitedN a ≤ 1 := by
  cases a <;> simp [exitedN]

theorem allExited_iff : ∀ ws : List (WState ι ε),
    allExited ws = true ↔ ∀ a ∈ ws, a = .exited
  | [] => by simp [allExited]
  | a :: ws => by
      have ih := allExited_iff ws
      cases a <;> simp [allExited, ih]

theorem wsum_of_allExited (g : WState ι ε → Nat) :
    ∀ ws : List (WState ι ε), allExited ws = true → wsum g ws = ws.length * g .exited
  | [], _ => by simp [wsum]
  | a :: ws, h => by
      cases a <;> simp [allExited] at h
      have ih := wsum_of_allExited g ws h
      simp [wsum_cons, ih]
      ring

theorem exists_not_exited : ∀ ws : List (WState ι ε), allExited ws = false →
    ∃ (w : Nat) (a : WState ι ε), ws[w]? = some a ∧ a ≠ WState.exited
  | [], h => by simp [allExited] at h
  | a :: ws, h => by
      by_cases ha : a = WState.exited
      · subst ha
        simp [allExited] at h
        obtain ⟨w, b, hb, hne⟩ := exists_not_exited ws h
        exact ⟨w + 1, b, by simpa using hb, hne⟩
      · exact ⟨0, a, by simp, ha⟩

/-! ## Worker pool: what each step does -/

theorem dispatch_eq_some {P : Pool ι ε} {w : Nat} {s s' : PState ι ε} :
    dispatch P w s = some s' ↔
      s.phase = .feeding ∧ s.err = none ∧ s.workers[w]? = some .idle ∧
      ∃ x, P.items[s.next]? = some x ∧
        s' = { s with next := s.next + 1, workers := s.workers.set w (.busy x) } := by
  unfold dispatch
  split
  · rename_i h1 h2 h3 h4
    simp [h1, h2, h3, h4, eq_comm]
  · rename_i h
    constructor
    · intro h'; cases h'
    · rintro ⟨h1, h2, h3, x, h4, -⟩
      exact absurd h3 (h x h1 h2 h4)

theorem recvErr_eq_some {P : Pool ι ε} {s s' : PState ι ε} :
    recvErr P s = some s' ↔
      s.phase = .feeding ∧ s.err = none ∧ s.next < P.items.length ∧
      ∃ e q, s.errorChan = e :: q ∧ s' = { s with err := some e, errorChan := q } := by
  unfold recvErr
  split
  · rename_i h1 h2 h3 h4
    obtain ⟨hlt, -⟩ := List.getElem?_eq_some.1 h3
    constructor
    · intro h'
      exact ⟨h1, h2, hlt, _, _, h4, (Option.some.inj h').symm⟩
    · rintro ⟨-, -, -, e, q, h5, h6⟩
      rw [h4] at h5
      cases h5
      rw [h6]
  · rename_i h
    constructor
    · intro h'; cases h'
    · rintro ⟨h1, h2, h3, e, q, h4, -⟩
      exact absurd h4 (h _ e q h1 h2 (List.getElem?_eq_getElem h3))

theorem closeChan_eq_some {P : Pool ι ε} {s s' : PState ι ε} :
    closeChan P s = some s' ↔
      s.phase = .feeding ∧ (s.err.isSome = true ∨ P.items.length ≤ s.next) ∧
      s' = { s with phase := .waiting } := by
  unfold closeChan
  split
  · rename_i h1
    by_cases h : s.err.isSome = true ∨ P.items.length ≤ s.next
    · have h' : (s.err.isSome || decide (P.items.length ≤ s.next)) = true := by simpa using h
      rw [if_pos h']
      constructor
      · intro h2
        exact ⟨h1, h, (Option.some.inj h2).symm⟩
      · rintro ⟨-, -, h2⟩
        rw [h2]
    · have h' : ¬ (s.err.isSome || decide (P.items.length ≤ s.next)) = true := by simpa using h
      rw [if_neg h']
      constructor
      · intro h2; cases h2
      · rintro ⟨-, h2, -⟩
        exact absurd h2 h
  · rename_i h
    constructor
    · intro h2; cases h2
    · rintro ⟨h1, -⟩
      exact absurd h1 h

theorem work_eq_some {P : Pool ι ε} {w : Nat} {s s' : PState ι ε} :
    work P w s = some s' ↔
      ∃ x, s.workers[w]? = some (.busy x) ∧
        ((P.f x = none ∧ s' = { s with workers := s.workers.set w .idle,
                                        processed := s.processed ++ [x] }) ∨
         (∃ e, P.f x = some e ∧ s' = { s with workers := s.workers.set w (.failed e),
                                              processed := s.processed ++ [x] })) := by
  unfold work
  split
  · rename_i x h1
    split
    · rename_i h2
      simp [h1, h2, eq_comm]
    · rename_i e h2
      simp [h1, h2, eq_comm]
  · rename_i h
    constructor
    · intro h'; cases h'
    · rintro ⟨x, h1, -⟩
      exact absurd h1 (h x)

theorem report_eq_some {P : Pool ι ε} {w : Nat} {s s' : PState ι ε} :
    report P w s = some s' ↔
      ∃ e, s.workers[w]? = some (.failed e) ∧ s.errorChan.length < P.W ∧
        s' = { s with workers := s.workers.set w .exited,
                      errorChan := s.errorChan ++ [e], sent := s.sent ++ [e] } := by
  unfold report
  split
  · rename_i e h1
    by_cases h : s.errorChan.length < P.W
    · simp [h1, h, eq_comm]
    · simp [h1, h]
  · rename_i h
    constructor
    · intro h'; cases h'
    · rintro ⟨e, h1, -⟩
      exact absurd h1 (h e)

theorem leave_eq_some {w : Nat} {s s' : PState ι ε} :
    leave w s = some s' ↔
      s.phase ≠ .feeding ∧ s.workers[w]? = some .idle ∧
      s' = { s with workers := s.workers.set w .exited } := by
  unfold leave
  split
  · rename_i h1
    simp [h1]
  · rename_i h1 h2
    constructor
    · intro h'
      exact ⟨h2, h1, (Option.some.inj h').symm⟩
    · rintro ⟨-, -, h3⟩
      rw [h3]
  · rename_i h1 h2
    constructor
    · intro h'; cases h'
    · rintro ⟨h3, h4, -⟩
      exact absurd h4 h2

theorem ret_eq_some {P : Pool ι ε} {s s' : PState ι ε} :
    ret P s = some s' ↔
      s.phase = .waiting ∧ allExited s.workers = true ∧
      s' = { s with phase := .returned (stageResult P.stage s.err s.errorChan) } := by
  unfold ret
  split
  · rename_i h1
    by_cases h : allExited s.workers = true
    · rw [if_pos h]
      constructor
      · intro h2
        exact ⟨h1, h, (Option.some.inj h2).symm⟩
      · rintro ⟨-, -, h2⟩
        rw [h2]
    · rw [if_neg h]
      constructor
      · intro h2; cases h2
      · rintro ⟨-, h2, -⟩
        exact absurd h2 h
  · rename_i h
    constructor
    · intro h2; cases h2
    · rintro ⟨h1, -⟩
      exact absurd h1 h

/-! ## Worker pool: invariant -/

theorem getElem?_set_cases {α : Type} (ws : List α) (w w' : Nat) (b c : α)
    (h : (ws.set w b)[w']? = some c) : c = b ∨ ws[w']? = some c := by
  rw [List.getElem?_set] at h
  split at h
  · split at h
    · left; exact (Option.some.inj h).symm
    · cases h
  · right; exact h

theorem Inv.init [DecidableEq ι] (P : Pool ι ε) : Inv P P.init where
  len := by simp [Pool.init]
  next_le := by simp [Pool.init]
  counts := by
    intro x
    simp [Pool.init, wsum_replicate, holds]
  chan_le := by simp [Pool.init, errN]
  chan_eq := by
    intro _
    simp [Pool.init, errN, wsum_replicate, exitedN]
  sent_len := by simp [Pool.init, errN]
  nfail := by simp [Pool.init, wsum_replicate, failedN]
  chan_sub := by simp [Pool.init]
  err_sub := by simp [Pool.init]
  sent_src := by simp [Pool.init]
  failed_src := by
    intro w e h
    simp [Pool.init] at h
    rw [List.getElem?_replicate] at h
    split at h <;> cases h
  closed := by simp [Pool.init]
  done := by simp [Pool.init]

theorem Inv.dispatch [DecidableEq ι] {P : Pool ι ε} {w : Nat} {s s' : PState ι ε}
    (h : Inv P s) (hs : dispatch P w s = some s') : Inv P s' := by
  obtain ⟨hp, he, hw, x, hx, rfl⟩ := dispatch_eq_some.1 hs
  obtain ⟨hlt, hxe⟩ := List.getElem?_eq_some.1 hx
  have hE := wsum_set (exitedN (ι := ι) (ε := ε)) s.workers w _ (.busy x) hw
  have hF := wsum_set (failedN (ι := ι) (ε := ε)) s.workers w _ (.busy x) hw
  simp only [exitedN, failedN] at hE hF
  refine
    { len := by simpa using h.len
      next_le := hlt
      counts := ?_
      chan_le := by have := h.chan_le; simp only; omega
      chan_eq := by intro _; have := h.chan_eq hp; simp only; omega
      sent_len := h.sent_len
      nfail := by have := h.nfail; simp only; omega
      chan_sub := h.chan_sub
      err_sub := h.err_sub
      sent_src := h.sent_src
      failed_src := ?_
      closed := by intro hne; exact absurd hp hne
      done := by intro r hr; simp only at hr; rw [hp] at hr; cases hr }
  · intro y
    have hH := wsum_set (holds (ε := ε) y) s.workers w _ (.busy x) hw
    have hc := h.counts y
    simp only [holds] at hH
    simp only [List.take_succ, hx, Option.toList, List.count_append, List.count_cons,
      List.count_nil]
    by_cases hxy : x = y
    · simp [hxy] at hH ⊢
      omega
    · simp [hxy] at hH ⊢
      omega
  · intro w' e hw'
    rcases getElem?_set_cases _ _ _ _ _ hw' with h1 | h1
    · cases h1
    · exact h.failed_src w' e h1

theorem allExited_getElem? {ws : List (WState ι ε)} (h : allExited ws = true) {w : Nat}
    {a : WState ι ε} (hw : ws[w]? = some a) : a = WState.exited :=
  (allExited_iff ws).1 h a (List.mem_iff_getElem?.2 ⟨w, hw⟩)

theorem Inv.recvErr [DecidableEq ι] {P : Pool ι ε} {s s' : PState ι ε}
    (h : Inv P s) (hs : recvErr P s = some s') : Inv P s' := by
  obtain ⟨hp, he, -, e, q, hq, rfl⟩ := recvErr_eq_some.1 hs
  have h1 := h.chan_le
  have h2 := h.chan_eq hp
  have h3 := h.sent_len
  rw [hq, he] at h1 h2 h3
  simp only [errN, List.length_cons] at h1 h2 h3
  refine
    { len := h.len
      next_le := h.next_le
      counts := h.counts
      chan_le := by simp only [errN]; omega
      chan_eq := by intro _; simp only [errN]; omega
      sent_len := by simp only [errN]; omega
      nfail := h.nfail
      chan_sub := fun e' he' => h.chan_sub e' (by rw [hq]; exact List.mem_cons_of_mem _ he')
      err_sub := ?_
      sent_src := h.sent_src
      failed_src := h.failed_src
      closed := by intro hne; exact absurd hp hne
      done := by intro r hr; simp only at hr; rw [hp] at hr; cases hr }
  intro e' he'
  cases he'
  exact h.chan_sub e (by rw [hq]; exact List.mem_cons_self _ _)

theorem Inv.closeChan [DecidableEq ι] {P : Pool ι ε} {s s' : PState ι ε}
    (h : Inv P s) (hs : closeChan P s = some s') : Inv P s' := by
  obtain ⟨-, hc, rfl⟩ := closeChan_eq_some.1 hs
  refine
    { len := h.len
      next_le := h.next_le
      counts := h.counts
      chan_le := h.chan_le
      chan_eq := by intro hf; cases hf
      sent_len := h.sent_len
      nfail := h.nfail
      chan_sub := h.chan_sub
      err_sub := h.err_sub
      sent_src := h.sent_src
      failed_src := h.failed_src
      closed := ?_
      done := by intro r hr; cases hr }
  intro _
  rcases hc with hc | hc
  · exact Or.inl hc
  · exact Or.inr (Nat.le_antisymm h.next_le hc)

theorem Inv.work [DecidableEq ι] {P : Pool ι ε} {w : Nat} {s s' : PState ι ε}
    (h : Inv P s) (hs : work P w s = some s') : Inv P s' := by
  obtain ⟨x, hw, hcase⟩ := work_eq_some.1 hs
  have hcount : ∀ (b : WState ι ε) (y : ι), holds y b = 0 →
      (s.processed ++ [x]).count y + wsum (holds y) (s.workers.set w b)
        = (P.items.take s.next).count y := by
    intro b y hb
    have hH := wsum_set (holds (ε := ε) y) s.workers w _ b hw
    have hc := h.counts y
    rw [hb] at hH
    simp only [holds] at hH
    simp only [List.count_append, List.count_cons, List.count_nil]
    by_cases hxy : x = y
    · simp [hxy] at hH ⊢
      omega
    · simp [hxy] at hH ⊢
      omega
  have hmono : ∀ e, (∃ y ∈ s.processed, P.f y = some e) →
      ∃ y ∈ s.processed ++ [x], P.f y = some e := by
    rintro e ⟨y, hy, hfy⟩
    exact ⟨y, List.mem_append_left _ hy, hfy⟩
  have hnot : ∀ r, s.phase ≠ .returned r := by
    intro r hr
    have := allExited_getElem? (h.done r hr).1 hw
    cases this
  rcases hcase with ⟨hf, rfl⟩ | ⟨e, hf, rfl⟩
  · have hE := wsum_set (exitedN (ι := ι) (ε := ε)) s.workers w _ .idle hw
    have hF := wsum_set (failedN (ι := ι) (ε := ε)) s.workers w _ .idle hw
    simp only [exitedN, failedN] at hE hF
    refine
      { len := by simpa using h.len
        next_le := h.next_le
        counts := fun y => hcount _ y rfl
        chan_le := by have := h.chan_le; simp only; omega
        chan_eq := by intro hp; have := h.chan_eq hp; simp only; omega
        sent_len := h.sent_len
        nfail := by
          have := h.nfail
          simp only [List.filter_append, List.length_append]
          simp [hf]
          omega
        chan_sub := h.chan_sub
        err_sub := h.err_sub
        sent_src := fun e he => hmono e (h.sent_src e he)
        failed_src := ?_
        closed := h.closed
        done := fun r hr => absurd hr (hnot r) }
    intro w' e hw'
    rcases getElem?_set_cases _ _ _ _ _ hw' with h1 | h1
    · cases h1
    · exact hmono e (h.failed_src w' e h1)
  · have hE := wsum_set (exitedN (ι := ι) (ε := ε)) s.workers w _ (.failed e) hw
    have hF := wsum_set (failedN (ι := ι) (ε := ε)) s.workers w _ (.failed e) hw
    simp only [exitedN, failedN] at hE hF
    refine
      { len := by simpa using h.len
        next_le := h.next_le
        counts := fun y => hcount _ y rfl
        chan_le := by have := h.chan_le; simp only; omega
        chan_eq := by intro hp; have := h.chan_eq hp; simp only; omega
        sent_len := h.sent_len
        nfail := by
          have := h.nfail
          simp only [List.filter_append, List.length_append]
          simp [hf]
          omega
        chan_sub := h.chan_sub
        err_sub := h.err_sub
        sent_src := fun e he => hmono e (h.sent_src e he)
        failed_src := ?_
        closed := h.closed
        done := fun r hr => absurd hr (hnot r) }
    intro w' e' hw'
    rcases getElem?_set_cases _ _ _ _ _ hw' with h1 | h1
    · cases h1
      exact ⟨x, by simp, hf⟩
    · exact hmono e' (h.failed_src w' e' h1)

theorem Inv.report [DecidableEq ι] {P : Pool ι ε} {w : Nat} {s s' : PState ι ε}
    (h : Inv P s) (hs : report P w s = some s') : Inv P s' := by
  obtain ⟨e, hw, -, rfl⟩ := report_eq_some.1 hs
  have hE := wsum_set (exitedN (ι := ι) (ε := ε)) s.workers w _ .exited hw
  have hF := wsum_set (failedN (ι := ι) (ε := ε)) s.workers w _ .exited hw
  simp only [exitedN, failedN] at hE hF
  have hnot : ∀ r, s.phase ≠ .returned r := by
    intro r hr
    have := allExited_getElem? (h.done r hr).1 hw
    cases this
  refine
    { len := by simpa using h.len
      next_le := h.next_le
      counts := ?_
      chan_le := by have := h.chan_le; simp only [List.length_append, List.length_singleton]; omega
      chan_eq := by
        intro hp
        have := h.chan_eq hp
        simp only [List.length_append, List.length_singleton]
        omega
      sent_len := by
        have := h.sent_len
        simp only [List.length_append, List.length_singleton]
        omega
      nfail := by
        have := h.nfail
        simp only [List.length_append, List.length_singleton]
        omega
      chan_sub := ?_
      err_sub := fun e' he' => List.mem_append_left _ (h.err_sub e' he')
      sent_src := ?_
      failed_src := ?_
      closed := h.closed
      done := fun r hr => absurd hr (hnot r) }
  · intro y
    have hH := wsum_set (holds (ε := ε) y) s.workers w _ .exited hw
    have hc := h.counts y
    simp only [holds] at hH
    simp only
    omega
  · intro e' he'
    rcases List.mem_append.1 he' with h1 | h1
    · exact List.mem_append_left _ (h.chan_sub e' h1)
    · exact List.mem_append_right _ h1
  · intro e' he'
    rcases List.mem_append.1 he' with h1 | h1
    · exact h.sent_src e' h1
    · have : e' = e := by simpa using h1
      subst this
      exact h.failed_src w e' hw
  · intro w' e' hw'
    rcases getElem?_set_cases _ _ _ _ _ hw' with h1 | h1
    · cases h1
    · exact h.failed_src w' e' h1

theorem Inv.leave [DecidableEq ι] {P : Pool ι ε} {w : Nat} {s s' : PState ι ε}
    (h : Inv P s) (hs : leave w s = some s') : Inv P s' := by
  obtain ⟨hp, hw, rfl⟩ := leave_eq_some.1 hs
  have hE := wsum_set (exitedN (ι := ι) (ε := ε)) s.workers w _ .exited hw
  have hF := wsum_set (failedN (ι := ι) (ε := ε)) s.workers w _ .exited hw
  simp only [exitedN, failedN] at hE hF
  have hnot : ∀ r, s.phase ≠ .returned r := by
    intro r hr
    have := allExited_getElem? (h.done r hr).1 hw
    cases this
  refine
    { len := by simpa using h.len
      next_le := h.next_le
      counts := ?_
      chan_le := by have := h.chan_le; simp only; omega
      chan_eq := fun hf => absurd hf hp
      sent_len := h.sent_len
      nfail := by have := h.nfail; simp only; omega
      chan_sub := h.chan_sub
      err_sub := h.err_sub
      sent_src := h.sent_src
      failed_src := ?_
      closed := h.closed
      done := fun r hr => absurd hr (hnot r) }
  · intro y
    have hH := wsum_set (holds (ε := ε) y) s.workers w _ .exited hw
    have hc := h.counts y
    simp only [holds] at hH
    simp only
    omega
  · intro w' e' hw'
    rcases getElem?_set_cases _ _ _ _ _ hw' with h1 | h1
    · cases h1
    · exact h.failed_src w' e' h1

theorem Inv.ret [DecidableEq ι] {P : Pool ι ε} {s s' : PState ι ε}
    (h : Inv P s) (hs : ret P s = some s') : Inv P s' := by
  obtain ⟨hp, hall, rfl⟩ := ret_eq_some.1 hs
  refine
    { len := h.len
      next_le := h.next_le
      counts := h.counts
      chan_le := h.chan_le
      chan_eq := by intro hf; cases hf
      sent_len := h.sent_len
      nfail := h.nfail
      chan_sub := h.chan_sub
      err_sub := h.err_sub
      sent_src := h.sent_src
      failed_src := h.failed_src
      closed := fun _ => h.closed (by rw [hp]; intro hc; cases hc)
      done := ?_ }
  intro r hr
  cases hr
  exact ⟨hall, rfl⟩

theorem Inv.step [DecidableEq ι] {P : Pool ι ε} {a : Action} {s s' : PState ι ε}
    (h : Inv P s) (hs : step P a s = some s') : Inv P s' := by
  cases a with
  | dispatch w => exact h.dispatch hs
  | recvErr => exact h.recvErr hs
  | closeChan => exact h.closeChan hs
  | work w => exact h.work hs
  | report w => exact h.report hs
  | leave w => exact h.leave hs
  | ret => exact h.ret hs

theorem Inv.exec [DecidableEq ι] {P : Pool ι ε} :
    ∀ (sched : List Action) {s s' : PState ι ε}, Inv P s → exec P sched s = some s' → Inv P s'
  | [], s, s', h, hs => by
      simp only [Mixer.exec] at hs
      cases hs
      exact h
  | a :: as, s, s', h, hs => by
      simp only [Mixer.exec] at hs
      cases hstep : Mixer.step P a s with
      | none => rw [hstep] at hs; cases hs
      | some t =>
          rw [hstep] at hs
          exact Inv.exec as (h.step hstep) hs

/-! ## Worker pool: termination and absence of deadlock -/

theorem step_measure {P : Pool ι ε} {a : Action} {s s' : PState ι ε}
    (hs : step P a s = some s') : measure P s' < measure P s := by
  cases a with
  | dispatch w =>
      obtain ⟨hp, he, hw, x, hx, rfl⟩ := dispatch_eq_some.1 hs
      obtain ⟨hlt, -⟩ := List.getElem?_eq_some.1 hx
      have hM := wsum_set (weight (ι := ι) (ε := ε)) s.workers w _ (.busy x) hw
      simp only [weight] at hM
      simp only [measure, phaseN, hp, he]
      omega
  | recvErr =>
      obtain ⟨hp, he, -, e, q, -, rfl⟩ := recvErr_eq_some.1 hs
      simp only [measure, phaseN, hp, he, errN]
      omega
  | closeChan =>
      obtain ⟨hp, -, rfl⟩ := closeChan_eq_some.1 hs
      simp only [measure, phaseN, hp]
      omega
  | work w =>
      obtain ⟨x, hw, hcase⟩ := work_eq_some.1 hs
      rcases hcase with ⟨-, rfl⟩ | ⟨e, -, rfl⟩
      · have hM := wsum_set (weight (ι := ι) (ε := ε)) s.workers w _ .idle hw
        simp only [weight] at hM
        simp only [measure, phaseN]
        omega
      · have hM := wsum_set (weight (ι := ι) (ε := ε)) s.workers w _ (.failed e) hw
        simp only [weight] at hM
        simp only [measure, phaseN]
        omega
  | report w =>
      obtain ⟨e, hw, -, rfl⟩ := report_eq_some.1 hs
      have hM := wsum_set (weight (ι := ι) (ε := ε)) s.workers w _ .exited hw
      simp only [weight] at hM
      simp only [measure, phaseN]
      omega
  | leave w =>
      obtain ⟨-, hw, rfl⟩ := leave_eq_some.1 hs
      have hM := wsum_set (weight (ι := ι) (ε := ε)) s.workers w _ .exited hw
      simp only [weight] at hM
      simp only [measure, phaseN]
      omega
  | ret =>
      obtain ⟨hp, -, rfl⟩ := ret_eq_some.1 hs
      simp only [measure, phaseN, hp]
      omega

theorem exec_measure {P : Pool ι ε} :
    ∀ (sched : List Action) {s s' : PState ι ε}, exec P sched s = some s' →
      sched.length + measure P s' ≤ measure P s
  | [], s, s', hs => by
      simp only [exec] at hs
      cases hs
      simp
  | a :: as, s, s', hs => by
      simp only [exec] at hs
      cases hstep : step P a s with
      | none => rw [hstep] at hs; cases hs
      | some t =>
          rw [hstep] at hs
          have h1 := exec_measure as hs
          have h2 := step_measure hstep
          simp only [List.length_cons]
          omega

theorem measure_init (P : Pool ι ε) : measure P P.init = 3 * P.items.length + P.W + 3 := by
  simp [measure, Pool.init, phaseN, errN, wsum_replicate, weight]

/-- Every interleaving from the initial state is at most `3 * M + W + 3` steps long. -/
theorem exec_length_le {P : Pool ι ε} {sched : List Action} {s : PState ι ε}
    (hs : exec P sched P.init = some s) : sched.length ≤ 3 * P.items.length + P.W + 3 := by
  have := exec_measure sched hs
  rw [measure_init] at this
  omega

/-- With at least one worker, a state that satisfies the invariant and has not
returned always has an enabled step: the pool cannot deadlock. -/
theorem Inv.progress [DecidableEq ι] {P : Pool ι ε} {s : PState ι ε} (h : Inv P s)
    (hW : 1 ≤ P.W) (hnr : ∀ r, s.phase ≠ .returned r) :
    ∃ a s', Mixer.step P a s = some s' := by
  have feed : s.phase = .feeding → (s.err = none ∧ s.next < P.items.length) ∨
      ∃ s', Mixer.step P .closeChan s = some s' := by
    intro hp
    by_cases hc : s.err.isSome = true ∨ P.items.length ≤ s.next
    · exact Or.inr ⟨_, closeChan_eq_some.2 ⟨hp, hc, rfl⟩⟩
    · left
      constructor
      · cases he : s.err with
        | none => rfl
        | some e => exact absurd (Or.inl (by simp [he])) hc
      · by_contra hlt
        exact hc (Or.inr (Nat.le_of_not_lt hlt))
  cases hall : allExited s.workers with
  | true =>
      cases hp : s.phase with
      | returned r => exact absurd hp (hnr r)
      | waiting => exact ⟨.ret, _, ret_eq_some.2 ⟨hp, hall, rfl⟩⟩
      | feeding =>
          rcases feed hp with ⟨he, hlt⟩ | ⟨s', hs'⟩
          · have h1 := h.chan_eq hp
            rw [wsum_of_allExited _ _ hall, h.len, he] at h1
            simp only [exitedN, errN] at h1
            cases hq : s.errorChan with
            | nil => rw [hq] at h1; simp at h1; omega
            | cons e q => exact ⟨.recvErr, _, recvErr_eq_some.2 ⟨hp, he, hlt, e, q, hq, rfl⟩⟩
          · exact ⟨_, s', hs'⟩
  | false =>
      obtain ⟨w, a, hw, hne⟩ := exists_not_exited s.workers hall
      cases a with
      | exited => exact absurd rfl hne
      | busy x =>
          cases hf : P.f x with
          | none => exact ⟨.work w, _, work_eq_some.2 ⟨x, hw, Or.inl ⟨hf, rfl⟩⟩⟩
          | some e => exact ⟨.work w, _, work_eq_some.2 ⟨x, hw, Or.inr ⟨e, hf, rfl⟩⟩⟩
      | failed e =>
          have hE := wsum_set (exitedN (ι := ι) (ε := ε)) s.workers w _ .exited hw
          have hL := wsum_le_length _ exitedN_le_one (s.workers.set w WState.exited)
          have h1 := h.chan_le
          have h2 := h.len
          simp only [exitedN, List.length_set] at hE hL
          exact ⟨.report w, _, report_eq_some.2 ⟨e, hw, by omega, rfl⟩⟩
      | idle =>
          cases hp : s.phase with
          | returned r => exact absurd hp (hnr r)
          | waiting =>
              exact ⟨.leave w, _, leave_eq_some.2 ⟨(by rw [hp]; intro hc; cases hc), hw, rfl⟩⟩
          | feeding =>
              rcases feed hp with ⟨he, hlt⟩ | ⟨s', hs'⟩
              · exact ⟨.dispatch w, _, dispatch_eq_some.2
                  ⟨hp, he, hw, _, List.getElem?_eq_getElem hlt, rfl⟩⟩
              · exact ⟨_, s', hs'⟩

theorem exec_append (P : Pool ι ε) :
    ∀ (as bs : List Action) (s : PState ι ε),
      exec P (as ++ bs) s = (exec P as s).bind (exec P bs)
  | [], _, _ => rfl
  | a :: as, bs, s => by
      simp only [List.cons_append, exec]
      cases Mixer.step P a s with
      | none => rfl
      | some t => exact exec_append P as bs t

/-- With at least one worker, every state that satisfies the invariant can be
run on to a state in which the stage has returned. -/
theorem Inv.completes [DecidableEq ι] {P : Pool ι ε} (hW : 1 ≤ P.W) :
    ∀ (n : Nat) (s : PState ι ε), Inv P s → measure P s ≤ n →
      ∃ sched s' r, Mixer.exec P sched s = some s' ∧ s'.phase = .returned r
  | 0, s, h, hn => by
      cases hp : s.phase with
      | returned r => exact ⟨[], s, r, rfl, hp⟩
      | feeding =>
          obtain ⟨a, s', hs'⟩ := h.progress hW (by rw [hp]; intro r hc; cases hc)
          have := step_measure hs'
          omega
      | waiting =>
          obtain ⟨a, s', hs'⟩ := h.progress hW (by rw [hp]; intro r hc; cases hc)
          have := step_measure hs'
          omega
  | n + 1, s, h, hn => by
      by_cases hr : ∃ r, s.phase = .returned r
      · obtain ⟨r, hr⟩ := hr
        exact ⟨[], s, r, rfl, hr⟩
      · obtain ⟨a, t, ht⟩ := h.progress hW (fun r hc => hr ⟨r, hc⟩)
        have hm := step_measure ht
        obtain ⟨sched, s', r, hs', hr'⟩ := Inv.completes hW n t (h.step ht) (by omega)
        refine ⟨a :: sched, s', r, ?_, hr'⟩
        simp only [Mixer.exec, ht, Option.bind]
        exact hs'

/-! ## Worker pool: facts at return -/

theorem stageResult_ne_none (st : Stage) (err : Option ε) (q : List ε) :
    stageResult st err q ≠ none ↔ 0 < q.length + errN err := by
  cases st <;> cases err <;> cases q <;> simp [stageResult, errN]

theorem stageResult_eq_some {st : Stage} {err : Option ε} {q : List ε} {e : ε}
    (h : stageResult st err q = some e) : err = some e ∨ q.head? = some e := by
  cases st <;> cases err <;> cases q <;> simp_all [stageResult]

theorem Inv.processed_mem [DecidableEq ι] {P : Pool ι ε} {s : PState ι ε} (h : Inv P s)
    {x : ι} (hx : x ∈ s.processed) : x ∈ P.items.take s.next := by
  have h1 := h.counts x
  have h2 : 0 < s.processed.count x := List.count_pos_iff.2 hx
  exact List.count_pos_iff.1 (by omega)

theorem Inv.processed_perm [DecidableEq ι] {P : Pool ι ε} {s : PState ι ε} (h : Inv P s)
    {r : Option ε} (hr : s.phase = .returned r) : s.processed.Perm (P.items.take s.next) := by
  rw [List.perm_iff_count]
  intro x
  have h1 := h.counts x
  rw [wsum_of_allExited _ _ (h.done r hr).1] at h1
  simpa [holds] using h1

theorem Inv.nfail_returned [DecidableEq ι] {P : Pool ι ε} {s : PState ι ε} (h : Inv P s)
    {r : Option ε} (hr : s.phase = .returned r) :
    (s.processed.filter (fun x => (P.f x).isSome)).length
      = s.errorChan.length + errN s.err := by
  have h1 := h.nfail
  rw [wsum_of_allExited _ _ (h.done r hr).1, h.sent_len] at h1
  simpa [failedN] using h1

/-! ## Archiver -/

theorem Lstat_of_rejected {fs : FS} {src : String} (h : IsRejected fs src) :
    (∃ err, Lstat fs src = .error err) ∨
      ∃ fi, Lstat fs src = .ok fi ∧ fi.IsRegular = false := by
  unfold IsRejected at h
  unfold Lstat
  cases hfs : fs src with
  | absent => exact Or.inl ⟨_, rfl⟩
  | unreachable msg => exact Or.inl ⟨_, rfl⟩
  | node kind perm data r =>
      rw [hfs] at h
      refine Or.inr ⟨_, rfl, ?_⟩
      cases kind <;> simp_all [FileInfo.IsRegular]

/-- A rejected source anywhere in the list makes the loop end with an error. -/
theorem archiveLoop_rejected (env : ArchiveEnv) (fs : FS) :
    ∀ (srcs : List String) (tw : TarWriter), (∃ src ∈ srcs, IsRejected fs src) →
      ∃ err tw', archiveLoop env fs tw srcs = (some err, tw')
  | [], _, h => by
      obtain ⟨src, hsrc, -⟩ := h
      cases hsrc
  | src :: rest, tw, h => by
      have ih : ∀ tw2, (∃ s ∈ rest, IsRejected fs s) →
          ∃ err tw', archiveLoop env fs tw2 rest = (some err, tw') :=
        fun tw2 h2 => archiveLoop_rejected env fs rest tw2 h2
      by_cases hrej : IsRejected fs src
      · rcases Lstat_of_rejected hrej with ⟨err, he⟩ | ⟨fi, hfi, hreg⟩
        · exact ⟨err, tw, by simp [archiveLoop, he]⟩
        · exact ⟨.other (src ++ " has unsupported type of file"), tw, by
            simp [archiveLoop, hfi, hreg]⟩
      · have hrest : ∃ s ∈ rest, IsRejected fs s := by
          obtain ⟨s, hs, hs'⟩ := h
          rcases List.mem_cons.1 hs with h1 | h1
          · subst h1; exact absurd hs' hrej
          · exact ⟨s, h1, hs'⟩
        unfold archiveLoop
        cases h1 : Lstat fs src with
        | error err => exact ⟨_, _, rfl⟩
        | ok fi =>
            by_cases hreg : fi.IsRegular = true
            · simp only [hreg, Bool.not_true, Bool.false_eq_true, if_false]
              cases h2 : FileInfoHeader fi with
              | error err => exact ⟨_, _, rfl⟩
              | ok hdr =>
                  simp only
                  rcases h3 : tw.WriteHeader env hdr with ⟨_ | err, tw1⟩
                  · simp only
                    cases h4 : ReadFile fs src with
                    | error err => exact ⟨_, _, rfl⟩
                    | ok srcData =>
                        simp only
                        rcases h5 : tw1.Write env srcData with ⟨_ | err, tw2⟩
                        · exact ih tw2 hrest
                        · exact ⟨_, _, rfl⟩
                  · exact ⟨_, _, rfl⟩
            · simp only [hreg, Bool.not_false, if_true]
              exact ⟨_, _, rfl⟩

theorem entryOf_regular {fs : FS} {p : String} {perm : Nat} {data : Bytes} {r : Bool}
    (h : fs p = .node .regular perm data r) :
    entryOf fs p =
      ({ name := baseName p, size := data.length, mode := perm, typeflag := .regular }, data) := by
  simp [entryOf, h]

/-- On readable regular files and a filter that takes every write, one turn of
the loop appends the entry's chunks and leaves the entry complete. -/
theorem archiveLoop_regular (env : ArchiveEnv) (fs : FS)
    (hpipe : ∀ w c, env.pipeWrite w c = none) :
    ∀ (srcs : List String) (tw : TarWriter), tw.nb = 0 →
      (∀ p ∈ srcs, IsReadableRegular fs p) →
      archiveLoop env fs tw srcs =
        (none, { written := tw.written ++ ((srcs.map (entryOf fs)).flatMap chunksOf ++ [.footer]),
                 nb := 0 })
  | [], tw, hnb, _ => by
      simp [archiveLoop, TarWriter.Close, TarWriter.emit, hnb, hpipe]
  | src :: rest, tw, hnb, hsrc => by
      obtain ⟨perm, data, hfs⟩ := hsrc src (List.mem_cons_self _ _)
      have hrest : ∀ p ∈ rest, IsReadableRegular fs p :=
        fun p hp => hsrc p (List.mem_cons_of_mem _ hp)
      have hent := entryOf_regular hfs
      by_cases hd : data = []
      · subst hd
        have ih := archiveLoop_regular env fs hpipe rest
          { written := tw.written ++ [.header (entryOf fs src).1], nb := 0 } rfl hrest
        simp only [hent] at ih
        simp [archiveLoop, Lstat, hfs, FileInfo.IsRegular, FileInfoHeader, TarWriter.WriteHeader,
          TarWriter.emit, hnb, hpipe, ReadFile, TarWriter.Write, hent, chunksOf]
        simpa using ih
      · have ih := archiveLoop_regular env fs hpipe rest
          { written := tw.written ++ [.header (entryOf fs src).1, .data data], nb := 0 } rfl hrest
        simp only [hent] at ih
        simp [archiveLoop, Lstat, hfs, FileInfo.IsRegular, FileInfoHeader, TarWriter.WriteHeader,
          TarWriter.emit, hnb, hpipe, ReadFile, TarWriter.Write, hent, chunksOf, hd]
        simpa using ih

/-- Reading back the chunks of complete entries gives the entries. -/
theorem untarFrom_entries :
    ∀ (es : List (TarHeader × Bytes)), (∀ e ∈ es, e.1.size = e.2.length) →
      ∀ (h : TarHeader) (d : Bytes), d.length = h.size →
        untarFrom (some (h, d)) (es.flatMap chunksOf ++ [.footer]) = some ((h, d) :: es)
  | [], _, h, d, hd => by simp [untarFrom, hd]
  | e :: es, hes, h, d, hd => by
      have hsz : e.1.size = e.2.length := hes e (List.mem_cons_self _ _)
      have hes' : ∀ e' ∈ es, e'.1.size = e'.2.length :=
        fun e' he' => hes e' (List.mem_cons_of_mem _ he')
      obtain ⟨eh, ed⟩ := e
      simp only at hsz
      by_cases hed : ed = []
      · subst hed
        have ih := untarFrom_entries es hes' eh [] (by simpa using hsz.symm)
        simp [chunksOf, untarFrom, hd]
        simpa using ih
      · have ih := untarFrom_entries es hes' eh ed hsz.symm
        simp [chunksOf, hed, untarFrom, hd, ih]

theorem untar_entries (es : List (TarHeader × Bytes))
    (hes : ∀ e ∈ es, e.1.size = e.2.length) :
    untar (es.flatMap chunksOf ++ [.footer]) = some es := by
  cases es with
  | nil => simp [untar, untarFrom]
  | cons e es =>
      have hsz : e.1.size = e.2.length := hes e (List.mem_cons_self _ _)
      have hes' : ∀ e' ∈ es, e'.1.size = e'.2.length :=
        fun e' he' => hes e' (List.mem_cons_of_mem _ he')
      obtain ⟨eh, ed⟩ := e
      simp only at hsz
      by_cases hed : ed = []
      · subst hed
        have ih := untarFrom_entries es hes' eh [] (by simpa using hsz.symm)
        simp [untar, chunksOf, untarFrom]
        simpa using ih
      · have ih := untarFrom_entries es hes' eh ed hsz.symm
        simp [untar, chunksOf, hed, untarFrom, ih]

/-! ## Pipeline -/

theorem archiveCall_fst (env : Env) (w : World) (dst : String) (srcs : List String) :
    (archiveCall env w dst srcs).1
      = Wrapf (createCompressedArchiveInternal env.archive w.fs dst srcs).1
          ("couldn't create compressed archive " ++ dst) := rfl

theorem archiveCall_calls (env : Env) (w : World) (dst : String) (srcs : List String) :
    (archiveCall env w dst srcs).2.calls
      = w.calls ++ [.createCompressedArchive dst srcs
          (createCompressedArchiveInternal env.archive w.fs dst srcs).1] := rfl

/-- What an `archiveCall` returns: either nil with a successful call recorded,
or the wrapped internal error with the failed call recorded. -/
theorem archiveCall_cases (env : Env) (w : World) (dst : String) (srcs : List String) :
    ((archiveCall env w dst srcs).1 = none ∧
      (archiveCall env w dst srcs).2.calls = w.calls ++ [.createCompressedArchive dst srcs none]) ∨
    ∃ e, (archiveCall env w dst srcs).1
          = some (.wrapped e ("couldn't create compressed archive " ++ dst)) ∧
      (archiveCall env w dst srcs).2.calls
          = w.calls ++ [.createCompressedArchive dst srcs (some e)] := by
  rw [archiveCall_fst, archiveCall_calls]
  cases h : (createCompressedArchiveInternal env.archive w.fs dst srcs).1 with
  | none => exact Or.inl ⟨rfl, rfl⟩
  | some e => exact Or.inr ⟨e, rfl, rfl⟩

theorem signFile_cases (env : Env) (b : Builder) (w : World) (fileName : String) :
    (∃ out, (signFile env b w fileName).1 = none ∧
      (signFile env b w fileName).2.calls
        = w.calls ++ [.Run "openssl" (signArgs b fileName) none out]) ∨
    ∃ e out, (signFile env b w fileName).1 = some (.other ("failed to sign file:\n" ++ out)) ∧
      (signFile env b w fileName).2.calls
        = w.calls ++ [.Run "openssl" (signArgs b fileName) (some e) out] := by
  unfold signFile
  simp only
  rcases h : env.Run w.fs "openssl" _ with ⟨⟨_ | e, out⟩, fs'⟩
  · exact Or.inl ⟨out, rfl, rfl⟩
  · exact Or.inr ⟨e, out, rfl, rfl⟩

theorem signFile_eq {env : Env} {b : Builder} {w w' : World} {fileName : String}
    {r : Option GoError} (h : signFile env b w fileName = (r, w')) :
    (∃ out, r = none ∧ w'.calls = w.calls ++ [.Run "openssl" (signArgs b fileName) none out]) ∨
    ∃ e out, r = some (.other ("failed to sign file:\n" ++ out)) ∧
      w'.calls = w.calls ++ [.Run "openssl" (signArgs b fileName) (some e) out] := by
  have h1 := signFile_cases env b w fileName
  rw [h] at h1
  exact h1

theorem archiveCall_eq {env : Env} {w w' : World} {dst : String} {srcs : List String}
    {r : Option GoError} (h : archiveCall env w dst srcs = (r, w')) :
    (r = none ∧ w'.calls = w.calls ++ [.createCompressedArchive dst srcs none]) ∨
    ∃ e, r = some (.wrapped e ("couldn't create compressed archive " ++ dst)) ∧
      w'.calls = w.calls ++ [.createCompressedArchive dst srcs (some e)] := by
  have h1 := archiveCall_cases env w dst srcs
  rw [h] at h1
  exact h1

theorem createZeroPack_eq {env : Env} {b : Builder} {w w' : World} {bundles : List File}
    {outputDir : String} {r : Option GoError}
    (h : createZeroPack env b w bundles outputDir = (r, w')) :
    w'.calls = w.calls ++
      [.zeroPacks outputDir (Join [b.ServerStateDir, "image"]) bundles b.NumDeltaWorkers r] := by
  unfold createZeroPack at h
  simp only [World.after, Prod.mk.injEq] at h
  obtain ⟨h1, h2⟩ := h
  rw [← h2, ← h1]

theorem buildUpdateContent_shape (env : Env) (b : Builder) (params : UpdateParameters) (fs : FS) :
    RunShape env b params (buildUpdateContent env b params fs).1
      (buildUpdateContent env b params fs).2.calls := by
  unfold buildUpdateContent
  simp only [World.after, List.nil_append]
  split
  · exact .badFormat
  · rename_i format hformat
    split
    · exact .metaFailed _
    · rename_i fs1 hmeta
      split
      · exact .badPrevious _
      · rename_i previous hprev
        split
        · exact .manifestsFailed _ _ _
        · rename_i mom fs2 hmom
          split
          · -- signing failed
            rename_i err w3 hsign
            cases hskip : params.SkipSigning with
            | true => simp [hskip] at hsign
            | false =>
                simp only [hskip, Bool.not_false, if_true] at hsign
                rcases signFile_eq hsign with ⟨out, h1, -⟩ | ⟨e, out, h1, h2⟩
                · cases h1
                · cases h1
                  simp only [h2]
                  exact .signFailed previous format e out hskip
          · rename_i w3 hsign
            have hsig : ∃ sig, Optional params.SkipSigning sig
                (fun c => ∃ out, c = signCall b none out) ∧
                w3.calls = [metaCall env b none, manifestsCall b params previous format none]
                  ++ sig := by
              cases hskip : params.SkipSigning with
              | true =>
                  simp only [hskip, Bool.not_true, Bool.false_eq_true, if_false,
                    Prod.mk.injEq, true_and] at hsign
                  exact ⟨[], Or.inl ⟨rfl, rfl⟩, by rw [← hsign]; rfl⟩
              | false =>
                  simp only [hskip, Bool.not_false, if_true] at hsign
                  rcases signFile_eq hsign with ⟨out, -, h2⟩ | ⟨e, out, h1, -⟩
                  · exact ⟨[signCall b none out], Or.inr ⟨rfl, _, ⟨out, rfl⟩, rfl⟩, by rw [h2]; rfl⟩
                  · cases h1
            obtain ⟨sig, hsig, hcalls3⟩ := hsig
            clear hsign
            split
            · -- MoM archive failed
              rename_i err w4 harch
              have harch' : archiveCall env w3 (momFOf b ++ ".tar") (momSources b params)
                  = (some err, w4) := by
                rw [← harch]
                unfold momSources momFOf thisVersionDirOf outputDirOf
                cases params.SkipSigning <;> rfl
              rcases archiveCall_eq harch' with ⟨h1, -⟩ | ⟨e, h1, h2⟩
              · cases h1
              · cases h1
                simp only [h2, hcalls3]
                exact .momArchiveFailed previous format sig e hsig
            · rename_i w4 harch
              have harch' : archiveCall env w3 (momFOf b ++ ".tar") (momSources b params)
                  = (none, w4) := by
                rw [← harch]
                unfold momSources momFOf thisVersionDirOf outputDirOf
                cases params.SkipSigning <;> rfl
              have hcalls4 : w4.calls =
                  [metaCall env b none, manifestsCall b params previous format none] ++ sig ++
                    [momArchiveCall b params none] := by
                rcases archiveCall_eq harch' with ⟨-, h2⟩ | ⟨e, h1, -⟩
                · rw [h2, hcalls3]; rfl
                · cases h1
              clear harch harch' hcalls3
              split
              · -- bundle pool failed
                rename_i err hpool
                simp only [hpool, hcalls4]
                have := @RunShape.poolFailed env b params previous format sig mom err hsig
                simpa only [List.append_assoc, List.cons_append, List.nil_append, poolCall,
                  thisVersionDirOf, outputDirOf] using this
              · rename_i hpool
                simp only [hpool]
                split
                · -- full manifest archive failed
                  rename_i err w6 hfull
                  rcases archiveCall_eq hfull with ⟨h1, -⟩ | ⟨e, h1, h2⟩
                  · cases h1
                  · cases h1
                    simp only [h2, hcalls4]
                    have := @RunShape.fullArchiveFailed env b params previous format sig mom e hsig
                    simpa only [List.append_assoc, List.cons_append, List.nil_append, poolCall,
                      fullArchiveCall, thisVersionDirOf, outputDirOf] using this
                · rename_i w6 hfull
                  have hcalls6 : w6.calls =
                      [metaCall env b none, manifestsCall b params previous format none] ++ sig ++
                        [momArchiveCall b params none, poolCall b mom none,
                          fullArchiveCall b none] := by
                    rcases archiveCall_eq hfull with ⟨-, h2⟩ | ⟨e, h1, -⟩
                    · rw [h2]
                      simp only [hcalls4, List.append_assoc, List.cons_append, List.nil_append,
                        poolCall, fullArchiveCall, thisVersionDirOf, outputDirOf]
                    · cases h1
                  clear hfull hcalls4 hpool
                  split
                  · -- full files failed
                    rename_i err w7 hff
                    cases hskip : params.SkipFullfiles with
                    | true => simp [hskip] at hff
                    | false =>
                        simp only [hskip, Bool.not_false, if_true] at hff
                        split at hff
                        · rename_i e fs7 hcf
                          simp only [Prod.mk.injEq] at hff
                          obtain ⟨h1, h2⟩ := hff
                          have h1' : e = err := Option.some.inj h1
                          subst h1'
                          rw [← h2]
                          simp only [hcalls6]
                          have := @RunShape.fullfilesFailed env b params previous format sig mom e
                            hsig hskip
                          simpa only [List.append_assoc, List.cons_append, List.nil_append,
                            fullfilesCall, outputDirOf] using this
                        · simp only [Prod.mk.injEq] at hff
                          cases hff.1
                  · rename_i w7 hff
                    have hff' : ∃ ff, Optional params.SkipFullfiles ff
                        (fun c => c = fullfilesCall b mom none) ∧
                        w7.calls = [metaCall env b none,
                          manifestsCall b params previous format none] ++ sig ++
                          [momArchiveCall b params none, poolCall b mom none,
                            fullArchiveCall b none] ++ ff := by
                      cases hskip : params.SkipFullfiles with
                      | true =>
                          simp only [hskip, Bool.not_true, Bool.false_eq_true, if_false,
                            Prod.mk.injEq, true_and] at hff
                          exact ⟨[], Or.inl ⟨rfl, rfl⟩, by rw [← hff, hcalls6]; simp⟩
                      | false =>
                          simp only [hskip, Bool.not_false, if_true] at hff
                          split at hff
                          · simp only [Prod.mk.injEq] at hff
                            cases hff.1
                          · simp only [Prod.mk.injEq, true_and] at hff
                            refine ⟨[fullfilesCall b mom none], Or.inr ⟨rfl, _, rfl, rfl⟩, ?_⟩
                            rw [← hff]
                            simp only [hcalls6, fullfilesCall, outputDirOf]
                    obtain ⟨ff, hffo, hcalls7⟩ := hff'
                    clear hff hcalls6
                    cases hskip : params.SkipPacks with
                    | true =>
                        simp only [hskip, Bool.not_true, Bool.false_eq_true, if_false]
                        rw [hcalls7]
                        have := @RunShape.done env b params previous format sig ff [] mom
                          hsig hffo (Or.inl ⟨hskip, rfl⟩)
                        simpa only [List.append_nil] using this
                    | false =>
                        simp only [Bool.not_false, if_true]
                        split
                        · rename_i err w8 hzp
                          have h8 := createZeroPack_eq hzp
                          simp only [h8, hcalls7]
                          exact @RunShape.zeroPacksFailed env b params previous format sig ff mom err
                            hsig hffo hskip
                        · rename_i w8 hzp
                          have h8 := createZeroPack_eq hzp
                          simp only [h8, hcalls7]
                          exact @RunShape.done env b params previous format sig ff
                            [zeroPacksCall b mom none] mom hsig hffo (Or.inr ⟨hskip, _, rfl, rfl⟩)

set_option maxHeartbeats 4000000 in
/-- The signing facts, read off the shape of a run. -/
theorem RunShape.signing {env : Env} {b : Builder} {params : UpdateParameters}
    {r : Option GoError} {calls : List Call} (hshape : RunShape env b params r calls)
    (hm : ∃ previous format, manifestsCall b params previous format none ∈ calls) :
    ((∃ c ∈ calls, c.isSigner = true) ↔ params.SkipSigning = false) ∧
    (∀ c ∈ calls, c.isSigner = true → ∃ e out, c = signCall b e out) ∧
    (params.SkipSigning = true →
      firstArchive calls = some (momFOf b ++ ".tar", [momFOf b])) ∧
    (params.SkipSigning = false →
      firstArchive calls = some (momFOf b ++ ".tar", [momFOf b, momFOf b ++ ".sig"]) ∨
      ((∃ e out, signCall b (some e) out ∈ calls) ∧ firstArchive calls = none)) := by
  obtain ⟨previous, format, hm⟩ := hm
  cases hshape with
  | badFormat => simp at hm
  | metaFailed e => simp [metaCall, manifestsCall] at hm
  | badPrevious e => simp [metaCall, manifestsCall] at hm
  | manifestsFailed p f e => simp [metaCall, manifestsCall] at hm
  | signFailed p f e out hs =>
      simp [metaCall, manifestsCall, signCall, Call.isSigner, firstArchive, hs]
  | momArchiveFailed p f sig e hsig =>
      rcases hsig with ⟨hs, rfl⟩ | ⟨hs, c, ⟨out, rfl⟩, rfl⟩ <;>
        simp [metaCall, manifestsCall, signCall, Call.isSigner, firstArchive, hs,
          momArchiveCall, momSources]
  | poolFailed p f sig mom e hsig =>
      rcases hsig with ⟨hs, rfl⟩ | ⟨hs, c, ⟨out, rfl⟩, rfl⟩ <;>
        simp [metaCall, manifestsCall, signCall, Call.isSigner, firstArchive, hs,
          momArchiveCall, momSources, poolCall]
  | fullArchiveFailed p f sig mom e hsig =>
      rcases hsig with ⟨hs, rfl⟩ | ⟨hs, c, ⟨out, rfl⟩, rfl⟩ <;>
        simp [metaCall, manifestsCall, signCall, Call.isSigner, firstArchive, hs,
          momArchiveCall, momSources, poolCall, fullArchiveCall]
  | fullfilesFailed p f sig mom e hsig hf =>
      rcases hsig with ⟨hs, rfl⟩ | ⟨hs, c, ⟨out, rfl⟩, rfl⟩ <;>
        simp [metaCall, manifestsCall, signCall, Call.isSigner, firstArchive, hs,
          momArchiveCall, momSources, poolCall, fullArchiveCall, fullfilesCall]
  | zeroPacksFailed p f sig ff mom e hsig hff hp =>
      rcases hsig with ⟨hs, rfl⟩ | ⟨hs, c, ⟨out, rfl⟩, rfl⟩ <;>
        rcases hff with ⟨hf, rfl⟩ | ⟨hf, c', rfl, rfl⟩ <;>
          simp [metaCall, manifestsCall, signCall, Call.isSigner, firstArchive, hs,
            momArchiveCall, momSources, poolCall, fullArchiveCall, fullfilesCall,
            zeroPacksCall]
  | done p f sig ff zp mom hsig hff hzp =>
      rcases hsig with ⟨hs, rfl⟩ | ⟨hs, c, ⟨out, rfl⟩, rfl⟩ <;>
        rcases hff with ⟨hf, rfl⟩ | ⟨hf, c', rfl, rfl⟩ <;>
          rcases hzp with ⟨hz, rfl⟩ | ⟨hz, c2, rfl, rfl⟩ <;>
            simp [metaCall, manifestsCall, signCall, Call.isSigner, firstArchive, hs,
              momArchiveCall, momSources, poolCall, fullArchiveCall, fullfilesCall,
              zeroPacksCall]


set_option maxHeartbeats 4000000 in
/-- A failed call is the last call of a run and fixes the error returned. -/
theorem RunShape.failed_call {env : Env} {b : Builder} {params : UpdateParameters}
    {r : Option GoError} {calls : List Call} (hshape : RunShape env b params r calls)
    (c : Call) (e : GoError) (hc : c ∈ calls) (he : c.err = some e) :
    calls.getLast? = some c ∧ r = some (returnedFor c e) := by
  cases hshape with
  | badFormat => simp at hc
  | metaFailed e' =>
      simp only [List.mem_singleton] at hc
      subst hc
      simp_all [metaCall, Call.err, returnedFor]
  | badPrevious e' =>
      simp only [List.mem_singleton] at hc
      subst hc
      simp [metaCall, Call.err] at he
  | manifestsFailed p f e' =>
      simp only [List.mem_cons, List.mem_singleton, List.not_mem_nil, or_false] at hc
      rcases hc with rfl | rfl <;> simp_all [metaCall, manifestsCall, Call.err, returnedFor]
  | signFailed p f e' out hs =>
      simp only [List.mem_cons, List.mem_singleton, List.not_mem_nil, or_false] at hc
      rcases hc with rfl | rfl | rfl <;>
        simp_all [metaCall, manifestsCall, signCall, Call.err, returnedFor]
  | momArchiveFailed p f sig e' hsig =>
      rcases hsig with ⟨hs, rfl⟩ | ⟨hs, c', ⟨out, rfl⟩, rfl⟩ <;>
        simp only [List.mem_cons, List.mem_append, List.mem_singleton, List.not_mem_nil,
          or_false, false_or, or_assoc] at hc <;>
        rcases hc with rfl | rfl | rfl | rfl <;>
        simp_all [metaCall, manifestsCall, signCall, momArchiveCall, Call.err, returnedFor]
  | poolFailed p f sig mom e' hsig =>
      rcases hsig with ⟨hs, rfl⟩ | ⟨hs, c', ⟨out, rfl⟩, rfl⟩ <;>
        simp only [List.mem_cons, List.mem_append, List.mem_singleton, List.not_mem_nil,
          or_false, false_or, or_assoc] at hc <;>
        rcases hc with rfl | rfl | rfl | rfl | rfl <;>
        simp_all [metaCall, manifestsCall, signCall, momArchiveCall, poolCall, Call.err,
          returnedFor]
  | fullArchiveFailed p f sig mom e' hsig =>
      rcases hsig with ⟨hs, rfl⟩ | ⟨hs, c', ⟨out, rfl⟩, rfl⟩ <;>
        simp only [List.mem_cons, List.mem_append, List.mem_singleton, List.not_mem_nil,
          or_false, false_or, or_assoc] at hc <;>
        rcases hc with rfl | rfl | rfl | rfl | rfl | rfl <;>
        simp_all [metaCall, manifestsCall, signCall, momArchiveCall, poolCall,
          fullArchiveCall, Call.err, returnedFor]
  | fullfilesFailed p f sig mom e' hsig hf =>
      rcases hsig with ⟨hs, rfl⟩ | ⟨hs, c', ⟨out, rfl⟩, rfl⟩ <;>
        simp only [List.mem_cons, List.mem_append, List.mem_singleton, List.not_mem_nil,
          or_false, false_or, or_assoc] at hc <;>
        rcases hc with rfl | rfl | rfl | rfl | rfl | rfl | rfl <;>
        simp_all [metaCall, manifestsCall, signCall, momArchiveCall, poolCall,
          fullArchiveCall, fullfilesCall, Call.err, returnedFor]
  | zeroPacksFailed p f sig ff mom e' hsig hff hp =>
      rcases hsig with ⟨hs, rfl⟩ | ⟨hs, c', ⟨out, rfl⟩, rfl⟩ <;>
        rcases hff with ⟨hf, rfl⟩ | ⟨hf, c2, rfl, rfl⟩ <;>
        simp only [List.mem_cons, List.mem_append, List.mem_singleton, List.not_mem_nil,
          or_false, false_or, or_assoc] at hc <;>
        rcases hc with rfl | rfl | rfl | rfl | rfl | rfl | rfl | rfl <;>
        simp_all [metaCall, manifestsCall, signCall, momArchiveCall, poolCall,
          fullArchiveCall, fullfilesCall, zeroPacksCall, Call.err, returnedFor]
  | done p f sig ff zp mom hsig hff hzp =>
      rcases hsig with ⟨hs, rfl⟩ | ⟨hs, c', ⟨out, rfl⟩, rfl⟩ <;>
        rcases hff with ⟨hf, rfl⟩ | ⟨hf, c2, rfl, rfl⟩ <;>
        rcases hzp with ⟨hz, rfl⟩ | ⟨hz, c3, rfl, rfl⟩ <;>
        simp only [List.mem_cons, List.mem_append, List.mem_singleton, List.not_mem_nil,
          or_false, false_or, or_assoc] at hc <;>
        rcases hc with rfl | rfl | rfl | rfl | rfl | rfl | rfl | rfl <;>
        simp_all [metaCall, manifestsCall, signCall, momArchiveCall, poolCall,
          fullArchiveCall, fullfilesCall, zeroPacksCall, Call.err, returnedFor]

/-! ## Worker pool: steps that cannot dispatch -/

theorem step_next {P : Pool ι ε} {a : Action} {s s' : PState ι ε}
    (hs : step P a s = some s') : s'.next = s.next + countDispatch [a] := by
  cases a with
  | dispatch w => obtain ⟨-, -, -, x, -, rfl⟩ := dispatch_eq_some.1 hs; rfl
  | recvErr => obtain ⟨-, -, -, e, q, -, rfl⟩ := recvErr_eq_some.1 hs; rfl
  | closeChan => obtain ⟨-, -, rfl⟩ := closeChan_eq_some.1 hs; rfl
  | work w =>
      obtain ⟨x, -, hcase⟩ := work_eq_some.1 hs
      rcases hcase with ⟨-, rfl⟩ | ⟨e, -, rfl⟩ <;> rfl
  | report w => obtain ⟨e, -, -, rfl⟩ := report_eq_some.1 hs; rfl
  | leave w => obtain ⟨-, -, rfl⟩ := leave_eq_some.1 hs; rfl
  | ret => obtain ⟨-, -, rfl⟩ := ret_eq_some.1 hs; rfl

theorem countDispatch_cons (a : Action) (as : List Action) :
    countDispatch (a :: as) = countDispatch [a] + countDispatch as := by
  cases a <;> simp [countDispatch]
  omega

theorem exec_next {P : Pool ι ε} :
    ∀ (sched : List Action) {s s' : PState ι ε}, exec P sched s = some s' →
      s'.next = s.next + countDispatch sched
  | [], s, s', hs => by
      simp only [exec] at hs
      cases hs
      rfl
  | a :: as, s, s', hs => by
      simp only [exec] at hs
      cases hstep : step P a s with
      | none => rw [hstep] at hs; cases hs
      | some t =>
          rw [hstep] at hs
          have h1 := exec_next as hs
          have h2 := step_next hstep
          rw [countDispatch_cons]
          omega

/-- Once the feeder's `err` is set it stays set, and no step dispatches. -/
theorem step_err_set {P : Pool ι ε} {a : Action} {s s' : PState ι ε}
    (he : s.err.isSome = true) (hs : step P a s = some s') :
    s'.err.isSome = true ∧ countDispatch [a] = 0 := by
  cases a with
  | dispatch w =>
      obtain ⟨-, h, -⟩ := dispatch_eq_some.1 hs
      rw [h] at he
      cases he
  | recvErr =>
      obtain ⟨-, h, -⟩ := recvErr_eq_some.1 hs
      rw [h] at he
      cases he
  | closeChan => obtain ⟨-, -, rfl⟩ := closeChan_eq_some.1 hs; exact ⟨he, rfl⟩
  | work w =>
      obtain ⟨x, -, hcase⟩ := work_eq_some.1 hs
      rcases hcase with ⟨-, rfl⟩ | ⟨e, -, rfl⟩ <;> exact ⟨he, rfl⟩
  | report w => obtain ⟨e, -, -, rfl⟩ := report_eq_some.1 hs; exact ⟨he, rfl⟩
  | leave w => obtain ⟨-, -, rfl⟩ := leave_eq_some.1 hs; exact ⟨he, rfl⟩
  | ret => obtain ⟨-, -, rfl⟩ := ret_eq_some.1 hs; exact ⟨he, rfl⟩

theorem exec_err_set {P : Pool ι ε} :
    ∀ (sched : List Action) {s s' : PState ι ε}, s.err.isSome = true →
      exec P sched s = some s' → countDispatch sched = 0
  | [], _, _, _, _ => rfl
  | a :: as, s, s', he, hs => by
      simp only [exec] at hs
      cases hstep : step P a s with
      | none => rw [hstep] at hs; cases hs
      | some t =>
          rw [hstep] at hs
          have h1 := step_err_set he hstep
          have h2 := exec_err_set as h1.1 hs
          rw [countDispatch_cons]
          omega

theorem exec_no_dispatch_after_recv {P : Pool ι ε} :
    ∀ (sched : List Action) {s s' : PState ι ε},
      exec P sched s = some s' → dispatchedAfterRecv sched = 0
  | [], _, _, _ => rfl
  | a :: as, s, s', hs => by
      simp only [exec] at hs
      cases hstep : step P a s with
      | none => rw [hstep] at hs; cases hs
      | some t =>
          rw [hstep] at hs
          have ih := exec_no_dispatch_after_recv as hs
          cases a with
          | recvErr =>
              obtain ⟨-, -, -, e, q, -, rfl⟩ := recvErr_eq_some.1 hstep
              refine exec_err_set as ?_ hs
              rfl
          | dispatch w => exact ih
          | closeChan => exact ih
          | work w => exact ih
          | report w => exact ih
          | leave w => exact ih
          | ret => exact ih

/-- Once every worker has exited the worker table is frozen and nothing is
dispatched. -/
theorem step_all_exited {P : Pool ι ε} {a : Action} {s s' : PState ι ε}
    (he : allExited s.workers = true) (hs : step P a s = some s') :
    allExited s'.workers = true ∧ countDispatch [a] = 0 := by
  cases a with
  | dispatch w =>
      obtain ⟨-, -, hw, -⟩ := dispatch_eq_some.1 hs
      cases allExited_getElem? he hw
  | recvErr => obtain ⟨-, -, -, e, q, -, rfl⟩ := recvErr_eq_some.1 hs; exact ⟨he, rfl⟩
  | closeChan => obtain ⟨-, -, rfl⟩ := closeChan_eq_some.1 hs; exact ⟨he, rfl⟩
  | work w =>
      obtain ⟨x, hw, -⟩ := work_eq_some.1 hs
      cases allExited_getElem? he hw
  | report w =>
      obtain ⟨e, hw, -⟩ := report_eq_some.1 hs
      cases allExited_getElem? he hw
  | leave w =>
      obtain ⟨-, hw, -⟩ := leave_eq_some.1 hs
      cases allExited_getElem? he hw
  | ret => obtain ⟨-, -, rfl⟩ := ret_eq_some.1 hs; exact ⟨he, rfl⟩

theorem exec_all_exited {P : Pool ι ε} :
    ∀ (sched : List Action) {s s' : PState ι ε}, allExited s.workers = true →
      exec P sched s = some s' → countDispatch sched = 0
  | [], _, _, _, _ => rfl
  | a :: as, s, s', he, hs => by
      simp only [exec] at hs
      cases hstep : step P a s with
      | none => rw [hstep] at hs; cases hs
      | some t =>
          rw [hstep] at hs
          have h1 := step_all_exited he hstep
          have h2 := exec_all_exited as h1.1 hs
          rw [countDispatch_cons]
          omega

theorem exec_dispatch_after_report [DecidableEq ι] {P : Pool ι ε} :
    ∀ (sched : List Action) {s s' : PState ι ε}, Inv P s → exec P sched s = some s' →
      dispatchedAfterReport sched ≤ P.items.length - 1 ∧
      (P.W = 1 → dispatchedAfterReport sched = 0)
  | [], _, _, _, _ => ⟨Nat.zero_le _, fun _ => rfl⟩
  | a :: as, s, s', h, hs => by
      simp only [exec] at hs
      cases hstep : step P a s with
      | none => rw [hstep] at hs; cases hs
      | some t =>
          rw [hstep] at hs
          have ih := exec_dispatch_after_report as (h.step hstep) hs
          cases a with
          | report w =>
              have hn := exec_next as hs
              have hle := (Inv.exec as (h.step hstep) hs).next_le
              obtain ⟨e, hw, -, rfl⟩ := report_eq_some.1 hstep
              obtain ⟨x, hx, -⟩ := h.failed_src w e hw
              have hmem := h.processed_mem hx
              have hpos : 0 < s.next := by
                rcases Nat.eq_zero_or_pos s.next with h0 | h0
                · rw [h0] at hmem; simp at hmem
                · exact h0
              simp only [dispatchedAfterReport]
              simp only at hn
              refine ⟨by omega, fun hW => ?_⟩
              apply exec_all_exited as _ hs
              have hlen := h.len
              rw [hW] at hlen
              match hws : s.workers, hlen, hw with
              | [a], _, hw' =>
                  cases w with
                  | zero => simp [allExited]
                  | succ w => simp at hw'
          | dispatch w => exact ih
          | closeChan => exact ih
          | work w => exact ih
          | recvErr => exact ih
          | leave w => exact ih
          | ret => exact ih

/-! ## Worker pool: the claims -/

/-- C1 (worker pool, success case).  For every work list, every worker count
`W ≥ 1` and both copies of the pool: when the per-item body succeeds on every
item, every interleaving of the feeder and the workers is finite (at most
`3 * M + W + 3` steps), never gets stuck before the stage returns, can be run
on until the stage returns, and at return the stage's error is nil and the body has been run on every item of the
list exactly once (the processed items are a permutation of the list).  The
list need not be non-empty. -/
theorem pool_all_succeed [DecidableEq ι] (P : Pool ι ε) (hW : 1 ≤ P.W)
    (hok : ∀ x ∈ P.items, P.f x = none) (sched : List Action) (s : PState ι ε)
    (hs : exec P sched P.init = some s) :
    sched.length ≤ 3 * P.items.length + P.W + 3 ∧
    ((∀ r, s.phase ≠ .returned r) → ∃ a s', step P a s = some s') ∧
    (∃ more s' r, exec P (sched ++ more) P.init = some s' ∧ s'.phase = .returned r) ∧
    (∀ r, s.phase = .returned r → r = none ∧ s.processed.Perm P.items) := by
  have h : Inv P s := Inv.exec sched (Inv.init P) hs
  have hfin : ∃ more s' r, exec P (sched ++ more) P.init = some s' ∧ s'.phase = .returned r := by
    obtain ⟨more, s', r, h1, h2⟩ := Inv.completes hW _ s h (Nat.le_refl _)
    exact ⟨more, s', r, by rw [exec_append, hs]; exact h1, h2⟩
  refine ⟨exec_length_le hs, h.progress hW, hfin, ?_⟩
  intro r hr
  have hnf := h.nfail_returned hr
  have hfil : s.processed.filter (fun x => (P.f x).isSome) = [] := by
    rw [List.filter_eq_nil_iff]
    intro x hx
    have := hok x (List.mem_of_mem_take (h.processed_mem hx))
    simp [this]
  rw [hfil] at hnf
  simp only [List.length_nil] at hnf
  have hr0 : r = none := by
    by_contra hne
    rw [(h.done r hr).2] at hne
    have := (stageResult_ne_none _ _ _).1 hne
    omega
  have herr : s.err = none := by
    cases he : s.err with
    | none => rfl
    | some e => rw [he] at hnf; simp [errN] at hnf
  have hnext : s.next = P.items.length := by
    rcases h.closed (by rw [hr]; intro hc; cases hc) with h1 | h1
    · rw [herr] at h1; cases h1
    · exact h1
  have hp := h.processed_perm hr
  rw [hnext, List.take_length] at hp
  exact ⟨hr0, hp⟩

/-- Witness for `pool_all_succeed`: three items, two workers. -/
theorem pool_all_succeed_witness :
    ∃ s, exec poolOk schedOk poolOk.init = some s ∧ s.phase = .returned none ∧
      s.processed.Perm [10, 11, 12] := by
  have hs : exec poolOk schedOk poolOk.init
      = some ⟨3, none, .returned none, [], [.exited, .exited], [10, 11, 12], []⟩ := by decide
  exact ⟨_, hs, rfl,
    ((pool_all_succeed poolOk (by decide) (fun _ _ => rfl) schedOk _ hs).2.2.2 none rfl).2⟩

/-- C2 (worker pool, no lost error).  For every work list, every worker count
`W ≥ 1` and both copies of the pool: every interleaving is finite, never stuck
before return, and can be run on until the stage returns; at return (item channel closed, all workers exited) the
stage's error is non-nil exactly when some application of the body failed, and
a non-nil result is an error that a worker sent on the error channel, namely
the one the feeder received in its select or the one at the head of the error
channel. -/
theorem pool_no_lost_error [DecidableEq ι] (P : Pool ι ε) (hW : 1 ≤ P.W)
    (sched : List Action) (s : PState ι ε) (hs : exec P sched P.init = some s) :
    sched.length ≤ 3 * P.items.length + P.W + 3 ∧
    ((∀ r, s.phase ≠ .returned r) → ∃ a s', step P a s = some s') ∧
    (∃ more s' r, exec P (sched ++ more) P.init = some s' ∧ s'.phase = .returned r) ∧
    (∀ r, s.phase = .returned r →
      allExited s.workers = true ∧
      (r ≠ none ↔ ∃ x ∈ s.processed, P.f x ≠ none) ∧
      (∀ e, r = some e → e ∈ s.sent ∧ (s.err = some e ∨ s.errorChan.head? = some e))) := by
  have h : Inv P s := Inv.exec sched (Inv.init P) hs
  have hfin : ∃ more s' r, exec P (sched ++ more) P.init = some s' ∧ s'.phase = .returned r := by
    obtain ⟨more, s', r, h1, h2⟩ := Inv.completes hW _ s h (Nat.le_refl _)
    exact ⟨more, s', r, by rw [exec_append, hs]; exact h1, h2⟩
  refine ⟨exec_length_le hs, h.progress hW, hfin, ?_⟩
  intro r hr
  have hnf := h.nfail_returned hr
  obtain ⟨hall, hres⟩ := h.done r hr
  refine ⟨hall, ?_, ?_⟩
  · rw [hres, stageResult_ne_none, ← hnf, List.length_pos]
    constructor
    · intro hne
      obtain ⟨x, hx⟩ := List.exists_mem_of_ne_nil _ hne
      obtain ⟨hx1, hx2⟩ := List.mem_filter.1 hx
      refine ⟨x, hx1, ?_⟩
      intro hnone
      rw [hnone] at hx2
      cases hx2
    · rintro ⟨x, hx1, hx2⟩ hnil
      have : x ∈ s.processed.filter (fun x => (P.f x).isSome) := by
        apply List.mem_filter.2
        refine ⟨hx1, ?_⟩
        cases hf : P.f x with
        | none => exact absurd hf hx2
        | some e => rfl
      rw [hnil] at this
      cases this
  · intro e he
    rw [hres] at he
    have hcase := stageResult_eq_some he
    refine ⟨?_, hcase⟩
    rcases hcase with h1 | h1
    · exact h.err_sub e h1
    · exact h.chan_sub e (List.mem_of_mem_head? h1)

/-- Witness for `pool_no_lost_error`: the failure of item 0 is still queued in
the error channel when the zero-pack stage returns, and is the result. -/
theorem pool_no_lost_error_witness :
    ∃ s, exec poolFailFirst schedLate poolFailFirst.init = some s ∧
      s.phase = .returned (some 99) ∧ 99 ∈ s.sent := by
  have hs : exec poolFailFirst schedLate poolFailFirst.init
      = some ⟨5, none, .returned (some 99), [99], [.exited, .exited], [0, 1, 2, 3, 4], [99]⟩ := by
    decide
  exact ⟨_, hs, rfl,
    (((pool_no_lost_error poolFailFirst (by decide) schedLate _ hs).2.2.2 _ rfl).2.2 99 rfl).1⟩

/-- C3, as stated, fails.  Two workers, five items, the body fails on the first
item: worker 0 reports the failure, and in this interleaving the feeder's
select keeps taking the send case, so four items (more than `W = 2`) are
dispatched after the report and all five items end up dispatched. -/
theorem dispatch_after_report_exceeds_workers :
    ∃ s, exec poolFailFirst schedLate poolFailFirst.init = some s ∧
      s.next = poolFailFirst.items.length ∧
      dispatchedAfterReport schedLate = 4 ∧
      poolFailFirst.W < dispatchedAfterReport schedLate :=
  ⟨⟨5, none, .returned (some 99), [99], [.exited, .exited], [0, 1, 2, 3, 4], [99]⟩,
    by decide, by decide, by decide, by decide⟩

/-- C3 (abort promptness), amended.  In every interleaving of either copy of
the pool: once the feeder has received an error from the error channel it
dispatches no further item; the items dispatched after a worker's report
(before the feeder's receive) number at most `M - 1`, and none when `W = 1`. -/
theorem pool_abort_promptness [DecidableEq ι] (P : Pool ι ε) (sched : List Action)
    (s : PState ι ε) (hs : exec P sched P.init = some s) :
    dispatchedAfterRecv sched = 0 ∧
    dispatchedAfterReport sched ≤ P.items.length - 1 ∧
    (P.W = 1 → dispatchedAfterReport sched = 0) :=
  ⟨exec_no_dispatch_after_recv sched hs, exec_dispatch_after_report sched (Inv.init P) hs⟩

/-- Witness for `pool_abort_promptness`: the feeder receives the error right
after the report and the four remaining items are never dispatched. -/
theorem pool_abort_promptness_witness :
    ∃ s, exec poolFailFirst schedPrompt poolFailFirst.init = some s ∧ s.next = 1 ∧
      dispatchedAfterRecv schedPrompt = 0 := by
  have hs : exec poolFailFirst schedPrompt poolFailFirst.init
      = some ⟨1, some 99, .returned (some 99), [], [.exited, .exited], [0], [99]⟩ := by
    decide
  exact ⟨_, hs, rfl, (pool_abort_promptness poolFailFirst schedPrompt _ hs).1⟩

/-- C4, as stated, fails.  One worker, two items, the body fails on the first:
the stage returns that error and the body is never run on the second item. -/
theorem single_failure_skips_rest :
    ∃ s, exec poolOneWorker schedOneWorker poolOneWorker.init = some s ∧
      s.phase = .returned (some 99) ∧ 1 ∈ poolOneWorker.items ∧ 1 ∉ s.processed :=
  ⟨⟨1, some 99, .returned (some 99), [], [.exited], [0], [99]⟩,
    by decide, by decide, by decide, by decide⟩

/-- C4 (worker pool, single failure), amended.  For every work list, worker
count `W ≥ 1` and both copies of the pool: when the body fails on exactly one
item (the one at index `k`, with error `e`), every interleaving is finite,
never stuck before return and can be run on until the stage returns; the stage
returns `e`, and the items on which the
body has been run are exactly the items dispatched before the feeder stopped
(the first `next` items of the list, the failing one among them), each once.
Items that were not dispatched are not attempted. -/
theorem pool_single_failure [DecidableEq ι] (P : Pool ι ε) (hW : 1 ≤ P.W)
    (k : Nat) (hk : k < P.items.length) (e : ε) (hfail : P.f P.items[k] = some e)
    (hrest : ∀ (j : Nat) (hj : j < P.items.length), j ≠ k → P.f P.items[j] = none)
    (sched : List Action) (s : PState ι ε) (hs : exec P sched P.init = some s) :
    sched.length ≤ 3 * P.items.length + P.W + 3 ∧
    ((∀ r, s.phase ≠ .returned r) → ∃ a s', step P a s = some s') ∧
    (∃ more s' r, exec P (sched ++ more) P.init = some s' ∧ s'.phase = .returned r) ∧
    (∀ r, s.phase = .returned r →
      r = some e ∧ k < s.next ∧ s.processed.Perm (P.items.take s.next)) := by
  have h : Inv P s := Inv.exec sched (Inv.init P) hs
  have hfin : ∃ more s' r, exec P (sched ++ more) P.init = some s' ∧ s'.phase = .returned r := by
    obtain ⟨more, s', r, h1, h2⟩ := Inv.completes hW _ s h (Nat.le_refl _)
    exact ⟨more, s', r, by rw [exec_append, hs]; exact h1, h2⟩
  refine ⟨exec_length_le hs, h.progress hW, hfin, ?_⟩
  intro r hr
  have hnf := h.nfail_returned hr
  obtain ⟨hall, hres⟩ := h.done r hr
  have hp := h.processed_perm hr
  -- an error that was sent comes from the failing item, which was dispatched
  have hsrc : ∀ e', e' ∈ s.sent → e' = e ∧ k < s.next := by
    intro e' he'
    obtain ⟨x, hx, hfx⟩ := h.sent_src e' he'
    obtain ⟨j, hj, hxj⟩ := List.mem_iff_getElem.1 (h.processed_mem hx)
    rw [List.getElem_take] at hxj
    have hj' : j < s.next ∧ j < P.items.length := by
      rw [List.length_take] at hj
      omega
    by_cases hjk : j = k
    · subst hjk
      rw [← hxj, hfail] at hfx
      exact ⟨(Option.some.inj hfx).symm, hj'.1⟩
    · have := hrest j hj'.2 hjk
      rw [hxj, hfx] at this
      cases this
  cases hr' : r with
  | some e' =>
      rw [hr'] at hres
      have hmem : e' ∈ s.sent := by
        rcases stageResult_eq_some hres.symm with h1 | h1
        · exact h.err_sub e' h1
        · exact h.chan_sub e' (List.mem_of_mem_head? h1)
      obtain ⟨h1, h2⟩ := hsrc e' hmem
      exact ⟨by rw [h1], h2, hp⟩
  | none =>
      exfalso
      rw [hr'] at hres
      have h0 : ¬ 0 < s.errorChan.length + errN s.err := by
        intro hpos
        exact (stageResult_ne_none P.stage s.err s.errorChan).2 hpos hres.symm
      have herr : s.err = none := by
        cases he : s.err with
        | none => rfl
        | some e0 => rw [he] at h0; simp [errN] at h0
      have hnext : s.next = P.items.length := by
        rcases h.closed (by rw [hr]; intro hc; cases hc) with h1 | h1
        · rw [herr] at h1; cases h1
        · exact h1
      rw [hnext, List.take_length] at hp
      have hmem : P.items[k] ∈ s.processed := hp.mem_iff.2 (List.getElem_mem hk)
      have : P.items[k] ∈ s.processed.filter (fun x => (P.f x).isSome) :=
        List.mem_filter.2 ⟨hmem, by rw [hfail]; rfl⟩
      have := List.length_pos_of_mem this
      omega

/-- Witness for `pool_single_failure`: one worker, the first of two items fails. -/
theorem pool_single_failure_witness :
    ∃ s, exec poolOneWorker schedOneWorker poolOneWorker.init = some s ∧
      s.phase = .returned (some 99) ∧ s.processed.Perm (poolOneWorker.items.take s.next) := by
  have hs : exec poolOneWorker schedOneWorker poolOneWorker.init
      = some ⟨1, some 99, .returned (some 99), [], [.exited], [0], [99]⟩ := by decide
  have h := (pool_single_failure poolOneWorker (by decide) 0 (by decide) 99 rfl
    (by
      intro j hj hne
      have : j = 1 := by
        have : j < 2 := hj
        omega
      subst this
      rfl) schedOneWorker _ hs).2.2.2 _ rfl
  exact ⟨_, hs, rfl, h.2.2⟩

/-! ## Archiver and zero-pack body: the claims -/

/-- C5 (idempotent pack skip).  For every bundle handled by a zero-pack worker:
`swupd.CreatePack` (from-version 0, to-version the bundle's version) is called
exactly when the lstat of the bundle's canonical pack path fails with an error
for which `os.IsNotExist` holds; when the lstat succeeds, which it does for an
entry of any type, the bundle is skipped with no error and the world (file
system and calls) is unchanged; when the lstat fails for another reason the
worker's error is that failure wrapped with the pack path, and again nothing is
called or written. -/
theorem zeroPackBody_skip (env : Env) (outputDir bundleDir : String) (w : World)
    (bundle : File) :
    ((∃ res, (zeroPackBody env outputDir bundleDir w bundle).2.calls
        = w.calls ++ [.CreatePack bundle.Name 0 bundle.Version outputDir bundleDir res])
      ↔ ∃ e, Lstat w.fs (packPath env outputDir bundle) = .error e ∧ IsNotExist e = true) ∧
    (∀ fi, Lstat w.fs (packPath env outputDir bundle) = .ok fi →
      zeroPackBody env outputDir bundleDir w bundle = (none, w)) ∧
    (∀ kind perm data rd, w.fs (packPath env outputDir bundle) = .node kind perm data rd →
      zeroPackBody env outputDir bundleDir w bundle = (none, w)) ∧
    (∀ e, Lstat w.fs (packPath env outputDir bundle) = .error e → IsNotExist e = false →
      zeroPackBody env outputDir bundleDir w bundle
        = (some (.wrapped e
            ("couldn't access existing pack file " ++ packPath env outputDir bundle)), w)) := by
  have hne : ∀ (c : Call), w.calls ≠ w.calls ++ [c] := by
    intro c h
    have := congrArg List.length h
    simp at this
  have hok : ∀ fi, Lstat w.fs (packPath env outputDir bundle) = .ok fi →
      zeroPackBody env outputDir bundleDir w bundle = (none, w) := by
    intro fi h
    unfold packPath at h
    simp [zeroPackBody, h]
  have hother : ∀ e, Lstat w.fs (packPath env outputDir bundle) = .error e →
      IsNotExist e = false →
      zeroPackBody env outputDir bundleDir w bundle
        = (some (.wrapped e
            ("couldn't access existing pack file " ++ packPath env outputDir bundle)), w) := by
    intro e h hn
    unfold packPath at h ⊢
    simp [zeroPackBody, h, hn, Wrapf]
  refine ⟨?_, hok, ?_, hother⟩
  · cases hl : Lstat w.fs (packPath env outputDir bundle) with
    | ok fi =>
        rw [hok fi hl]
        constructor
        · rintro ⟨res, h⟩
          exact absurd h (hne _)
        · rintro ⟨e, h, -⟩
          cases h
    | error e =>
        cases hn : IsNotExist e with
        | false =>
            rw [hother e hl hn]
            constructor
            · rintro ⟨res, h⟩
              exact absurd h (hne _)
            · rintro ⟨e', h, hn'⟩
              cases h
              rw [hn] at hn'
              cases hn'
        | true =>
            refine ⟨fun _ => ⟨e, rfl, hn⟩, fun _ => ?_⟩
            unfold packPath at hl
            unfold zeroPackBody
            simp only [hl, hn, Bool.not_true, Bool.false_eq_true, if_false]
            split
            · exact ⟨_, rfl⟩
            · exact ⟨_, rfl⟩
  · intro kind perm data rd h
    exact hok { name := baseName (packPath env outputDir bundle), size := data.length,
                kind := kind, perm := perm } (by simp [Lstat, h])

/-- Witness for `zeroPackBody_skip`: a pack that already exists is skipped. -/
theorem zeroPackBody_skip_witness :
    zeroPackBody demoEnv "/srv/state/www" "/srv/state/image" ⟨demoFS, []⟩ ⟨"os-core", 10⟩
      = (none, ⟨demoFS, []⟩) :=
  (zeroPackBody_skip demoEnv "/srv/state/www" "/srv/state/image" ⟨demoFS, []⟩
    ⟨"os-core", 10⟩).2.2.1 .regular 0o644 [1] true (by decide)

/-- C6 (non-regular source rejection).  For every destination and every source
list in which some source does not exist, cannot be looked up, or is not a
regular file (directory, symlink, device, ...), and for every behaviour of the
compression filter: `createCompressedArchive` returns a non-nil error, namely
some error wrapped with the destination path, and the file system is left
exactly as it was (nothing is written at the destination). -/
theorem createCompressedArchive_rejects (env : ArchiveEnv) (fs : FS) (dst : String)
    (srcs : List String) (h : ∃ src ∈ srcs, IsRejected fs src) :
    ∃ e, createCompressedArchive env fs dst srcs
      = (some (.wrapped e ("couldn't create compressed archive " ++ dst)), fs) := by
  unfold createCompressedArchive createCompressedArchiveInternal
  cases hstart : env.start with
  | some err => exact ⟨err, rfl⟩
  | none =>
      obtain ⟨err, tw', ha⟩ := archiveLoop_rejected env fs srcs NewWriter h
      refine ⟨err, ?_⟩
      simp only [archiveFiles, ha, Wrapf]

/-- Witness for `createCompressedArchive_rejects`: the second source is a
directory. -/
theorem createCompressedArchive_rejects_witness :
    ∃ e, createCompressedArchive demoArchiveEnv demoFS "/srv/state/www/10/Manifest.MoM.tar"
        ["/srv/state/www/10/Manifest.MoM", "/srv/state/www/10"]
      = (some (.wrapped e
          ("couldn't create compressed archive " ++ "/srv/state/www/10/Manifest.MoM.tar")),
        demoFS) :=
  createCompressedArchive_rejects demoArchiveEnv demoFS "/srv/state/www/10/Manifest.MoM.tar"
    ["/srv/state/www/10/Manifest.MoM", "/srv/state/www/10"]
    ⟨"/srv/state/www/10", by simp, by simp [IsRejected, demoFS]⟩

/-- C7 (archive contents and order).  For every list of sources that all name
readable regular files, written to a stream that accepts every write:
`archiveFiles` returns nil; the stream holds, for each source in the given
order, one header carrying the file's (base) name, its size and its mode bits,
followed by the file's contents, and then the footer; the header's size is the
length of the contents; and unpacking the stream gives back exactly these
entries, in the original order. -/
theorem archiveFiles_entries (env : ArchiveEnv) (fs : FS) (srcs : List String)
    (hsrc : ∀ p ∈ srcs, IsReadableRegular fs p)
    (hpipe : ∀ w c, env.pipeWrite w c = none) :
    ∃ tw, archiveFiles env fs srcs = (none, tw) ∧
      tw.written = (srcs.map (entryOf fs)).flatMap chunksOf ++ [.footer] ∧
      untar tw.written = some (srcs.map (entryOf fs)) ∧
      (untar tw.written).map List.length = some srcs.length ∧
      ∀ p ∈ srcs, ∃ perm data, fs p = .node .regular perm data true ∧
        entryOf fs p =
          ({ name := baseName p, size := data.length, mode := perm, typeflag := .regular },
            data) := by
  have hloop := archiveLoop_regular env fs hpipe srcs NewWriter rfl hsrc
  have hent : ∀ p ∈ srcs, ∃ perm data, fs p = .node .regular perm data true ∧
      entryOf fs p =
        ({ name := baseName p, size := data.length, mode := perm, typeflag := .regular },
          data) := by
    intro p hp
    obtain ⟨perm, data, hfs⟩ := hsrc p hp
    exact ⟨perm, data, hfs, entryOf_regular hfs⟩
  have hsz : ∀ e ∈ srcs.map (entryOf fs), e.1.size = e.2.length := by
    intro e he
    obtain ⟨p, hp, rfl⟩ := List.mem_map.1 he
    obtain ⟨perm, data, -, h2⟩ := hent p hp
    rw [h2]
  have hun := untar_entries _ hsz
  refine ⟨_, hloop, ?_, ?_, ?_, hent⟩
  · simp [NewWriter]
  · simpa [NewWriter] using hun
  · simp only [NewWriter, List.nil_append, hun, Option.map_some', List.length_map]

/-- Witness for `archiveFiles_entries`: the MoM and the full manifest. -/
theorem archiveFiles_entries_witness :
    ∃ tw, archiveFiles demoArchiveEnv demoFS
        ["/srv/state/www/10/Manifest.MoM", "/srv/state/www/10/Manifest.full"] = (none, tw) ∧
      untar tw.written = some
        [({ name := "Manifest.MoM", size := 3, mode := 0o644, typeflag := .regular },
            [77, 111, 77]),
         ({ name := "Manifest.full", size := 2, mode := 0o644, typeflag := .regular },
            [102, 117])] := by
  obtain ⟨tw, h1, -, h3, -⟩ := archiveFiles_entries demoArchiveEnv demoFS
    ["/srv/state/www/10/Manifest.MoM", "/srv/state/www/10/Manifest.full"]
    (by
      intro p hp
      simp only [List.mem_cons, List.mem_singleton, List.not_mem_nil, or_false] at hp
      rcases hp with rfl | rfl
      · exact ⟨0o644, [77, 111, 77], by decide⟩
      · exact ⟨0o644, [102, 117], by decide⟩)
    (fun _ _ => rfl)
  refine ⟨tw, h1, ?_⟩
  rw [h3]
  decide

/-! ## Pipeline: the claims -/

/-- C8 (signing disabled).  For every builder state, parameters and
collaborators, in a run in which the stages before signing succeed (manifest
materialization returned without error): the signing utility is run if and only
if `SkipSigning` is false, and then on `www/<MixVer>/Manifest.MoM`; when
`SkipSigning` is true the first archive created is the MoM archive, from exactly
one source, `Manifest.MoM`; when it is false and signing succeeds, the first
archive created is the MoM archive from exactly two sources, `Manifest.MoM` then
`Manifest.MoM.sig` (and when signing fails no archive is created). -/
theorem signing_iff_not_skipped (env : Env) (b : Builder) (params : UpdateParameters)
    (fs : FS)
    (hm : ∃ previous format, manifestsCall b params previous format none
      ∈ (buildUpdateContent env b params fs).2.calls) :
    ((∃ c ∈ (buildUpdateContent env b params fs).2.calls, c.isSigner = true)
      ↔ params.SkipSigning = false) ∧
    (∀ c ∈ (buildUpdateContent env b params fs).2.calls, c.isSigner = true →
      ∃ e out, c = signCall b e out) ∧
    (params.SkipSigning = true →
      firstArchive (buildUpdateContent env b params fs).2.calls
        = some (momFOf b ++ ".tar", [momFOf b])) ∧
    (params.SkipSigning = false →
      firstArchive (buildUpdateContent env b params fs).2.calls
          = some (momFOf b ++ ".tar", [momFOf b, momFOf b ++ ".sig"]) ∨
      ((∃ e out, signCall b (some e) out ∈ (buildUpdateContent env b params fs).2.calls) ∧
        firstArchive (buildUpdateContent env b params fs).2.calls = none)) :=
  (buildUpdateContent_shape env b params fs).signing hm

/-- Witness for `signing_iff_not_skipped`: with signing skipped the MoM archive
has the single source `Manifest.MoM`. -/
theorem signing_iff_not_skipped_witness :
    firstArchive (buildUpdateContent demoEnv demoBuilder demoParamsNoSign demoFS).2.calls
      = some ("/srv/state/www/10/Manifest.MoM.tar", ["/srv/state/www/10/Manifest.MoM"]) ∧
    ¬ ∃ c ∈ (buildUpdateContent demoEnv demoBuilder demoParamsNoSign demoFS).2.calls,
        c.isSigner = true := by
  have h := signing_iff_not_skipped demoEnv demoBuilder demoParamsNoSign demoFS
    ⟨0, 25, by decide⟩
  refine ⟨?_, fun hc => ?_⟩
  · rw [h.2.2.1 rfl]
    decide
  · have := h.1.1 hc
    cases this

/-- C9, as stated, fails.  When full-file generation fails (here with "no space
left on device", every other collaborator working), `buildUpdateContent`
returns that very error, without any wrapping. -/
theorem fullfiles_error_returned_bare :
    (demoEnvFullfilesFail.CreateFullfiles demoFS demoMoM.FullManifest
        "/srv/state/image/10/full" "/srv/state/www/10/files" 2 ["external-xz"]).1
      = .error (.other "no space left on device") ∧
    fullfilesCall demoBuilder demoMoM (some (.other "no space left on device"))
      ∈ (buildUpdateContent demoEnvFullfilesFail demoBuilder demoParams demoFS).2.calls ∧
    (buildUpdateContent demoEnvFullfilesFail demoBuilder demoParams demoFS).1
      = some (.other "no space left on device") := by
  refine ⟨rfl, ?_, ?_⟩ <;> decide

/-- C9 (fatal-error wrapping), amended.  In every run of `buildUpdateContent`,
a pipeline-level call that fails is the last call of the run (the pipeline
stops at once), and the error returned is determined by the failed call: for
the metadata write, manifest materialization, the MoM archive and the
full-manifest archive it is the underlying error wrapped with a context naming
the operation or the destination path; for signing it is a new error
"failed to sign file" carrying the signer's output (the underlying error is
dropped); for full-file generation and for the two pool stages it is the
underlying error itself. -/
theorem fatal_error_result (env : Env) (b : Builder) (params : UpdateParameters) (fs : FS)
    (c : Call) (e : GoError)
    (hc : c ∈ (buildUpdateContent env b params fs).2.calls) (he : c.err = some e) :
    (buildUpdateContent env b params fs).2.calls.getLast? = some c ∧
    (buildUpdateContent env b params fs).1 = some (returnedFor c e) ∧
    (c = metaCall env b (some e) →
      (buildUpdateContent env b params fs).1
        = some (.wrapped e "failed to write update metadata files")) ∧
    (∀ previous format, c = manifestsCall b params previous format (some e) →
      (buildUpdateContent env b params fs).1
        = some (.wrapped e "failed to create update metadata")) ∧
    (∀ out, c = signCall b (some e) out →
      (buildUpdateContent env b params fs).1
        = some (.other ("failed to sign file:\n" ++ out))) ∧
    (∀ dst srcs, c = .createCompressedArchive dst srcs (some e) →
      (buildUpdateContent env b params fs).1
        = some (.wrapped e ("couldn't create compressed archive " ++ dst))) ∧
    (∀ mom, c = fullfilesCall b mom (some e) →
      (buildUpdateContent env b params fs).1 = some e) := by
  obtain ⟨h1, h2⟩ := (buildUpdateContent_shape env b params fs).failed_call c e hc he
  refine ⟨h1, h2, ?_, ?_, ?_, ?_, ?_⟩
  · rintro rfl
    exact h2
  · rintro previous format rfl
    exact h2
  · rintro out rfl
    exact h2
  · rintro dst srcs rfl
    exact h2
  · rintro mom rfl
    exact h2

/-- Witness for `fatal_error_result`: the failed full-file generation is the
last call of the run. -/
theorem fatal_error_result_witness :
    (buildUpdateContent demoEnvFullfilesFail demoBuilder demoParams demoFS).2.calls.getLast?
      = some (fullfilesCall demoBuilder demoMoM (some (.other "no space left on device"))) :=
  (fatal_error_result demoEnvFullfilesFail demoBuilder demoParams demoFS
    (fullfilesCall demoBuilder demoMoM (some (.other "no space left on device")))
    (.other "no space left on device") (by decide) rfl).1

/-- C10 at a builder whose mix version file reads `010` (which parses to 10).
The signer is given `www/010/Manifest.MoM` and would write
`www/010/Manifest.MoM.sig`, while the MoM archive takes `www/10/Manifest.MoM`
and `www/10/Manifest.MoM.sig`: the two per-version directories differ.  With
collaborators that all work and the manifests in place under `www/10`, the run
fails at signing; with the canonical spelling `10` the same run succeeds. -/
theorem signed_file_is_not_archived_file :
    demoBuilder010.MixVerUint32 = 10 ∧ demoBuilder010.MixVer = "010" ∧
    signedFile demoBuilder010 = "/srv/state/www/010/Manifest.MoM" ∧
    momSources demoBuilder010 demoParams
      = ["/srv/state/www/10/Manifest.MoM", "/srv/state/www/10/Manifest.MoM.sig"] ∧
    signedFile demoBuilder010 ≠ momFOf demoBuilder010 ∧
    (buildUpdateContent demoEnv demoBuilder010 demoParams demoFS).1
      = some (.other "failed to sign file:\nError reading S/MIME message") ∧
    (buildUpdateContent demoEnv demoBuilder demoParams demoFS).1 = none := by
  refine ⟨rfl, rfl, ?_, ?_, ?_, ?_, ?_⟩ <;> decide

end Mixer
